import Mathlib

/-!
Shallow embedding of the trend-propagation inference engine of
`src/utils/indicatorAnalysis.ts` (function `extractTrendIndicators` and its
helpers), together with proofs of the specification claims about it.

Modelling conventions:
* A datetime string `"YYYY-MM-DD HH:mm:ss"` is represented by the integer
  timestamp it parses to (the code compares datetimes only through
  `new Date(...).getTime()`, an injective monotone function of the string for
  this fixed format, and uses the same instant — divided by 1000 — as the key
  of the price map; both are identified with one `Int` here).
* Prices (`number`) are represented by `ℚ`; the code performs only exact
  field operations on them (subtraction, division, multiplication).
* `allPredictions : Record<string, PredictionEntry[]>` is represented by an
  association list; a JS object has pairwise distinct keys, which theorems
  assume as a `Nodup` hypothesis where the proof needs it.
* JS `Array.prototype.sort` is a stable sort; it is modelled by
  `List.insertionSort`, which is also stable, hence extensionally identical
  on every input for a total transitive comparator.
-/

namespace IndicatorAnalysis

abbrev TF := String

/-- `PredictionEntry`: one timestamped signal value of a timeframe. -/
structure PredictionEntry where
  datetime : Int
  value : Int
deriving DecidableEq, Repr

/-- `CandlestickData`: one candle; only `time` and `open` are consumed by the
engine (the `open` field is called `openPrice` here because `open` is a Lean
keyword). -/
structure CandlestickData where
  time : Int
  openPrice : ℚ
deriving DecidableEq, Repr

/-- Output record `InitialIndicator` (lines 3-10 of the source). -/
structure InitialIndicator where
  datetime : Int
  trend_type : Int
  timeframe : TF
  end_datetime : Option Int
  open_price : ℚ
  directional_change_percent : ℚ
deriving DecidableEq, Repr

/-- Output record `Propagation` (lines 12-21 of the source). -/
structure Propagation where
  propagation_id : String
  propagation_level : Nat
  datetime : Int
  trend_type : Int
  higher_freq : TF
  lower_freq : TF
  open_price : ℚ
  directional_change_percent : ℚ
deriving DecidableEq, Repr

/-- Internal record `SignalInfo` (lines 132-142): one tracked signal of the
dynamic chain state.  The source stores the datetime string and its parsed
`datetimeMs` separately; both are the single `datetime` field here. -/
structure SignalInfo where
  datetime : Int
  timeframe : TF
  timeframeIndex : Nat
  trendType : Int
  openPrice : ℚ
  propagationLevel : Nat
  propagationId : String
  chainInitialPrice : ℚ
deriving DecidableEq, Repr

/-- Digit-string to number, as `parseInt(match[1], 10)` on the digits captured
by `^(\d+)...`. -/
def digitsToNat (l : List Char) : Nat :=
  l.foldl (fun n c => n * 10 + (c.toNat - 48)) 0

/-- `timeframeToSeconds` (lines 23-39).  The regex `^(\d+)(s|m|h|d|w|mo)$`
is modelled by splitting the string into its maximal leading digit run and
the remainder; a non-matching string yields 0. -/
def timeframeToSeconds (timeframe : TF) : Nat :=
  let cs := timeframe.toList
  let digits := cs.takeWhile Char.isDigit
  let unit := cs.dropWhile Char.isDigit
  if digits.isEmpty then 0
  else
    let value := digitsToNat digits
    match unit with
    | ['s'] => value
    | ['m'] => value * 60
    | ['h'] => value * 3600
    | ['d'] => value * 86400
    | ['w'] => value * 604800
    | ['m', 'o'] => value * 2592000
    | _ => 0

/-- `allPredictions[tf] || []`: association-list lookup with `[]` default. -/
def predsOf (allPredictions : List (TF × List PredictionEntry)) (tf : TF) :
    List PredictionEntry :=
  match allPredictions.find? (fun kv => kv.1 == tf) with
  | some kv => kv.2
  | none => []

/-- `getOpenPriceAtDatetime` (lines 41-50) on the `priceMap` path, as always
used by `extractTrendIndicators`: the map is built by inserting every candle
in order (`last write wins` on duplicate times, hence the search from the
right), and a missing key yields 0 (`priceMap.get(targetTime) || 0`). -/
def getOpenPriceAtDatetime (csvData : List CandlestickData) (datetime : Int) : ℚ :=
  match csvData.reverse.find? (fun c => c.time == datetime) with
  | some c => c.openPrice
  | none => 0

/-- Comparator of the timeframe sort (line 64):
`(a, b) => timeframeToSeconds(a) - timeframeToSeconds(b)`, ascending. -/
def timeframeLE (a b : TF) : Prop :=
  timeframeToSeconds a ≤ timeframeToSeconds b

instance : DecidableRel timeframeLE := fun a b =>
  inferInstanceAs (Decidable (timeframeToSeconds a ≤ timeframeToSeconds b))

instance : IsTotal TF timeframeLE :=
  ⟨fun a b => Nat.le_total (timeframeToSeconds a) (timeframeToSeconds b)⟩

instance : IsTrans TF timeframeLE :=
  ⟨fun _ _ _ hab hbc => Nat.le_trans hab hbc⟩

/-- Lines 57-64: the participating timeframes, sorted ascending by seconds
with a stable sort. -/
def sortedTimeframesOf (allPredictions : List (TF × List PredictionEntry))
    (selectedTimeframes : List TF) : List TF :=
  let allTimeframes := allPredictions.map Prod.fst
  let timeframesToUse :=
    if 0 < selectedTimeframes.length then
      allTimeframes.filter (fun tf => selectedTimeframes.contains tf)
    else allTimeframes
  List.insertionSort timeframeLE timeframesToUse

/-- Comparator of the fastest-timeframe signal sort (lines 83-85), ascending
by parsed datetime. -/
def predTimeLE (a b : PredictionEntry) : Prop :=
  a.datetime ≤ b.datetime

instance : DecidableRel predTimeLE := fun a b =>
  inferInstanceAs (Decidable (a.datetime ≤ b.datetime))

instance : IsTotal PredictionEntry predTimeLE :=
  ⟨fun a b => Int.le_total a.datetime b.datetime⟩

instance : IsTrans PredictionEntry predTimeLE :=
  ⟨fun _ _ _ hab hbc => Int.le_trans hab hbc⟩

/-- The fastest timeframe's signals, time-sorted (lines 80-85).  The `""`
default of `headD` is only reached when the timeframe list is empty, in which
case the engine has already returned. -/
def sortedPredictionsOf (allPredictions : List (TF × List PredictionEntry))
    (selectedTimeframes : List TF) : List PredictionEntry :=
  List.insertionSort predTimeLE
    (predsOf allPredictions ((sortedTimeframesOf allPredictions selectedTimeframes).headD ""))

/-- The `InitialIndicator` record pushed at lines 94-101. -/
def mkInitialIndicator (priceOf : Int → ℚ) (tf0 : TF) (pred : PredictionEntry) :
    InitialIndicator :=
  { datetime := pred.datetime
    trend_type := pred.value
    timeframe := tf0
    end_datetime := none
    open_price := priceOf pred.datetime
    directional_change_percent := 0 }

/-- The first pass of lines 87-105: walk the sorted fastest-timeframe signals
carrying `lastSignal`, emitting an indicator for every non-zero value that
differs from `lastSignal` (`null` differs from everything). -/
def initialScan (priceOf : Int → ℚ) (tf0 : TF) :
    Option Int → List PredictionEntry → List InitialIndicator
  | _, [] => []
  | lastSignal, pred :: rest =>
    if pred.value ≠ 0 then
      if lastSignal = none ∨ lastSignal ≠ some pred.value then
        mkInitialIndicator priceOf tf0 pred :: initialScan priceOf tf0 (some pred.value) rest
      else initialScan priceOf tf0 lastSignal rest
    else initialScan priceOf tf0 lastSignal rest

/-- The second pass of lines 107-123: `end_datetime` is the datetime of the
first strictly later opposing signal, else the datetime of the last signal of
the sequence (`null` only when the sequence is empty). -/
def assignEnd (sortedPredictions : List PredictionEntry) (ind : InitialIndicator) :
    InitialIndicator :=
  match sortedPredictions.find? (fun pred =>
      decide (ind.datetime < pred.datetime) && decide (pred.value = -ind.trend_type)) with
  | some laterSignal => { ind with end_datetime := some laterSignal.datetime }
  | none => { ind with end_datetime := sortedPredictions.getLast?.map (·.datetime) }

/-- Lines 75-78: `timeframeIndexMap` built by inserting each timeframe with
its index (last write wins), read with `?? 0` (lines 153). -/
def timeframeIndexOf (sortedTimeframes : List TF) (tf : TF) : Nat :=
  match sortedTimeframes.enum.reverse.find? (fun it => it.2 == tf) with
  | some it => it.1
  | none => 0

/-- Lines 146-160: every initial indicator becomes a level-0 tracked signal
with a fresh id `Prop_<n>` (`propagationCounter` is incremented before each
push, so the k-th indicator, 0-based, gets id `Prop_<k+1>`). -/
def seedSignals (tfIdxOf : TF → Nat) (inds : List InitialIndicator) : List SignalInfo :=
  inds.enum.map (fun ki =>
    { datetime := ki.2.datetime
      timeframe := ki.2.timeframe
      timeframeIndex := tfIdxOf ki.2.timeframe
      trendType := ki.2.trend_type
      openPrice := ki.2.open_price
      propagationLevel := 0
      propagationId := "Prop_" ++ toString (ki.1 + 1)
      chainInitialPrice := ki.2.open_price })

/-- Candidate ranking comparator (lines 193-198): propagation level
descending, then datetime descending; JS `sort` is stable on ties. -/
def parentBefore (a b : SignalInfo) : Prop :=
  b.propagationLevel < a.propagationLevel ∨
    (a.propagationLevel = b.propagationLevel ∧ b.datetime ≤ a.datetime)

instance : DecidableRel parentBefore := fun a b =>
  inferInstanceAs (Decidable (_ ∨ _))

instance : IsTotal SignalInfo parentBefore := by
  constructor
  intro a b
  unfold parentBefore
  omega

instance : IsTrans SignalInfo parentBefore := by
  constructor
  intro a b c hab hbc
  unfold parentBefore at *
  omega

/-- Lines 204-213: does the candidate parent's own timeframe contain an
opposing-direction signal strictly after the parent and at/before the
current signal? -/
def hasOpposingSignal (allPredictions : List (TF × List PredictionEntry))
    (parent : SignalInfo) (predDatetime : Int) : Bool :=
  (predsOf allPredictions parent.timeframe).any (fun p =>
    decide (parent.datetime < p.datetime) && decide (p.datetime ≤ predDatetime) &&
      decide (p.value = -parent.trendType))

/-- Lines 173-177: the first earlier same-value non-zero signal on the
current timeframe (its presence makes the current signal a repeat). -/
def previousSameTypeSignal (allPredictions : List (TF × List PredictionEntry))
    (currentTimeframe : TF) (pred : PredictionEntry) : Option PredictionEntry :=
  (predsOf allPredictions currentTimeframe).find? (fun p =>
    decide (p.datetime < pred.datetime) && decide (p.value = pred.value) &&
      decide (p.value ≠ 0))

/-- Lines 183-188: candidate parents — tracked signals of a strictly faster
timeframe, same direction, at or before the current signal. -/
def potentialParentsOf (i : Nat) (allSignals : List SignalInfo)
    (pred : PredictionEntry) : List SignalInfo :=
  allSignals.filter (fun signal =>
    decide (signal.timeframeIndex < i) && decide (signal.trendType = pred.value) &&
      decide (signal.datetime ≤ pred.datetime))

/-- Lines 190-219: rank the candidates (level descending, then datetime
descending, stable) and take the first whose own timeframe shows no opposing
signal in `(parent.datetime, pred.datetime]`. -/
def findValidParent (allPredictions : List (TF × List PredictionEntry))
    (i : Nat) (allSignals : List SignalInfo) (pred : PredictionEntry) :
    Option SignalInfo :=
  let potentialParents := potentialParentsOf i allSignals pred
  if potentialParents.isEmpty then none
  else
    (List.insertionSort parentBefore potentialParents).find?
      (fun parent => !hasOpposingSignal allPredictions parent pred.datetime)

/-- The `Propagation` record pushed at lines 228-248. -/
def mkPropagation (csvData : List CandlestickData) (currentTimeframe : TF)
    (validParent : SignalInfo) (pred : PredictionEntry) : Propagation :=
  { propagation_id := validParent.propagationId
    propagation_level := validParent.propagationLevel + 1
    datetime := pred.datetime
    trend_type := pred.value
    higher_freq := validParent.timeframe
    lower_freq := currentTimeframe
    open_price := getOpenPriceAtDatetime csvData pred.datetime
    directional_change_percent :=
      if validParent.chainInitialPrice ≠ 0 then
        (getOpenPriceAtDatetime csvData pred.datetime - validParent.chainInitialPrice) /
          validParent.chainInitialPrice * 100
      else 0 }

/-- The `SignalInfo` record pushed at lines 250-261. -/
def mkTrackedSignal (csvData : List CandlestickData) (i : Nat)
    (currentTimeframe : TF) (validParent : SignalInfo) (pred : PredictionEntry) :
    SignalInfo :=
  { datetime := pred.datetime
    timeframe := currentTimeframe
    timeframeIndex := i
    trendType := pred.value
    openPrice := getOpenPriceAtDatetime csvData pred.datetime
    propagationLevel := validParent.propagationLevel + 1
    propagationId := validParent.propagationId
    chainInitialPrice := validParent.chainInitialPrice }

/-- The body of the inner loop of lines 168-262 for one signal `pred` of the
timeframe at index `i`: returns the emitted propagation and the tracked
signal appended to `allSignals`, or `none` when the signal is skipped. -/
def emitOne (allPredictions : List (TF × List PredictionEntry))
    (csvData : List CandlestickData) (i : Nat) (currentTimeframe : TF)
    (allSignals : List SignalInfo) (pred : PredictionEntry) :
    Option (Propagation × SignalInfo) :=
  if pred.value = 0 then none
  else if (previousSameTypeSignal allPredictions currentTimeframe pred).isSome then none
  else
    match findValidParent allPredictions i allSignals pred with
    | none => none
    | some validParent =>
      some (mkPropagation csvData currentTimeframe validParent pred,
            mkTrackedSignal csvData i currentTimeframe validParent pred)

/-- The inner loop of lines 168-263 over all signals of one timeframe. -/
def processPass (allPredictions : List (TF × List PredictionEntry))
    (csvData : List CandlestickData) (i : Nat) (currentTimeframe : TF) :
    List PredictionEntry → List SignalInfo × List Propagation →
      List SignalInfo × List Propagation
  | [], st => st
  | pred :: rest, (sigs, props) =>
    match emitOne allPredictions csvData i currentTimeframe sigs pred with
    | none => processPass allPredictions csvData i currentTimeframe rest (sigs, props)
    | some (prop, info) =>
      processPass allPredictions csvData i currentTimeframe rest
        (sigs ++ [info], props ++ [prop])

/-- The outer loop of lines 163-264: timeframes from index 1 to the end, in
order; called with `i = 1` and the tail of the sorted timeframe list. -/
def processTimeframes (allPredictions : List (TF × List PredictionEntry))
    (csvData : List CandlestickData) :
    Nat → List TF → List SignalInfo × List Propagation →
      List SignalInfo × List Propagation
  | _, [], st => st
  | i, tf :: rest, st =>
    processTimeframes allPredictions csvData (i + 1) rest
      (processPass allPredictions csvData i tf (predsOf allPredictions tf) st)

/-- Lines 87-123: the initial indicators — the first scan over the sorted
fastest-timeframe signals, then `end_datetime` assignment. -/
def initialIndicatorsOf (allPredictions : List (TF × List PredictionEntry))
    (selectedTimeframes : List TF) (csvData : List CandlestickData) :
    List InitialIndicator :=
  (initialScan (getOpenPriceAtDatetime csvData)
      ((sortedTimeframesOf allPredictions selectedTimeframes).headD "") none
      (sortedPredictionsOf allPredictions selectedTimeframes)).map
    (assignEnd (sortedPredictionsOf allPredictions selectedTimeframes))

/-- Lines 146-160: the level-0 tracked signals seeding the chain state. -/
def seedsOf (allPredictions : List (TF × List PredictionEntry))
    (selectedTimeframes : List TF) (csvData : List CandlestickData) :
    List SignalInfo :=
  seedSignals (timeframeIndexOf (sortedTimeframesOf allPredictions selectedTimeframes))
    (initialIndicatorsOf allPredictions selectedTimeframes csvData)

/-- Lines 163-264: the final chain state — tracked signals and propagations —
after processing every timeframe beyond the fastest. -/
def chainStateOf (allPredictions : List (TF × List PredictionEntry))
    (selectedTimeframes : List TF) (csvData : List CandlestickData) :
    List SignalInfo × List Propagation :=
  processTimeframes allPredictions csvData 1
    ((sortedTimeframesOf allPredictions selectedTimeframes).drop 1)
    (seedsOf allPredictions selectedTimeframes csvData, [])

/-- `extractTrendIndicators` (lines 52-272), additionally returning the final
tracked-signal list (`allSignals`), which the source keeps internal.  When a
timeframe survives the filter (`sortedTimeframes` non-empty), its head is the
fastest timeframe and its tail drives the propagation loop. -/
def extractFull (allPredictions : List (TF × List PredictionEntry))
    (selectedTimeframes : List TF) (csvData : List CandlestickData) :
    List InitialIndicator × List Propagation × List SignalInfo :=
  if sortedTimeframesOf allPredictions selectedTimeframes = [] then ([], [], [])
  else
    (initialIndicatorsOf allPredictions selectedTimeframes csvData,
     (chainStateOf allPredictions selectedTimeframes csvData).2,
     (chainStateOf allPredictions selectedTimeframes csvData).1)

/-- `extractTrendIndicators` as exported by the source: initial indicators
and propagations. -/
def extractTrendIndicators (allPredictions : List (TF × List PredictionEntry))
    (selectedTimeframes : List TF) (csvData : List CandlestickData) :
    List InitialIndicator × List Propagation :=
  ((extractFull allPredictions selectedTimeframes csvData).1,
   (extractFull allPredictions selectedTimeframes csvData).2.1)

/-! ### Lemmas about one chaining step -/

theorem findValidParent_spec {ap : List (TF × List PredictionEntry)} {i : Nat}
    {sigs : List SignalInfo} {pred : PredictionEntry} {parent : SignalInfo}
    (h : findValidParent ap i sigs pred = some parent) :
    parent ∈ sigs ∧ parent.timeframeIndex < i ∧ parent.trendType = pred.value ∧
      parent.datetime ≤ pred.datetime ∧
      hasOpposingSignal ap parent pred.datetime = false := by
  simp only [findValidParent] at h
  split at h
  · exact absurd h (by simp)
  · have hmem := List.mem_of_find?_eq_some h
    have hsat := List.find?_some h
    have hmem2 : parent ∈ potentialParentsOf i sigs pred :=
      (List.perm_insertionSort parentBefore _).mem_iff.mp hmem
    unfold potentialParentsOf at hmem2
    have hc := List.mem_filter.mp hmem2
    simp only [Bool.and_eq_true, decide_eq_true_eq] at hc
    simp only [Bool.not_eq_eq_eq_not, Bool.not_true] at hsat
    exact ⟨hc.1, hc.2.1.1, hc.2.1.2, hc.2.2, hsat⟩

theorem emitOne_some_spec {ap : List (TF × List PredictionEntry)}
    {csv : List CandlestickData} {i : Nat} {tf : TF} {sigs : List SignalInfo}
    {pred : PredictionEntry} {prop : Propagation} {info : SignalInfo}
    (h : emitOne ap csv i tf sigs pred = some (prop, info)) :
    pred.value ≠ 0 ∧ previousSameTypeSignal ap tf pred = none ∧
      ∃ parent, findValidParent ap i sigs pred = some parent ∧ parent ∈ sigs ∧
        parent.timeframeIndex < i ∧ parent.trendType = pred.value ∧
        parent.datetime ≤ pred.datetime ∧
        hasOpposingSignal ap parent pred.datetime = false ∧
        prop = mkPropagation csv tf parent pred ∧
        info = mkTrackedSignal csv i tf parent pred := by
  by_cases h0 : pred.value = 0
  · simp [emitOne, h0] at h
  · by_cases h1 : (previousSameTypeSignal ap tf pred).isSome
    · simp [emitOne, h0, h1] at h
    · rw [emitOne, if_neg h0, if_neg h1] at h
      cases hfv : findValidParent ap i sigs pred with
      | none => rw [hfv] at h; exact absurd h (by simp)
      | some parent =>
        rw [hfv] at h
        simp only [Option.some.injEq, Prod.mk.injEq] at h
        obtain ⟨hm, hi1, hi2, hi3, hi4⟩ := findValidParent_spec hfv
        exact ⟨h0, Option.not_isSome_iff_eq_none.mp h1, parent, rfl, hm, hi1, hi2, hi3,
          hi4, h.1.symm, h.2.symm⟩

theorem previousSameTypeSignal_isSome {ap : List (TF × List PredictionEntry)}
    {tf : TF} {pred : PredictionEntry}
    (h : ∃ p ∈ predsOf ap tf, p.datetime < pred.datetime ∧ p.value = pred.value ∧
      p.value ≠ 0) :
    (previousSameTypeSignal ap tf pred).isSome := by
  unfold previousSameTypeSignal
  rw [List.find?_isSome]
  obtain ⟨p, hp, h1, h2, h3⟩ := h
  refine ⟨p, hp, ?_⟩
  simp only [Bool.and_eq_true, decide_eq_true_eq]
  exact ⟨⟨h1, h2⟩, h3⟩

theorem emitOne_none_of_prev {ap : List (TF × List PredictionEntry)}
    {csv : List CandlestickData} {i : Nat} {tf : TF} {sigs : List SignalInfo}
    {pred : PredictionEntry}
    (h : (previousSameTypeSignal ap tf pred).isSome) :
    emitOne ap csv i tf sigs pred = none := by
  by_cases h0 : pred.value = 0 <;> simp [emitOne, h0, h]

theorem emitOne_nil_sigs {ap : List (TF × List PredictionEntry)}
    {csv : List CandlestickData} {i : Nat} {tf : TF} {pred : PredictionEntry} :
    emitOne ap csv i tf [] pred = none := by
  have hfv : findValidParent ap i [] pred = none := by
    unfold findValidParent potentialParentsOf
    simp
  by_cases h0 : pred.value = 0
  · simp [emitOne, h0]
  · by_cases h1 : (previousSameTypeSignal ap tf pred).isSome
    · simp [emitOne, h0, h1]
    · rw [emitOne, if_neg h0, if_neg h1, hfv]

theorem potentialParentsOf_append_eq {i : Nat} {sigs extra : List SignalInfo}
    {pred : PredictionEntry} (h : ∀ s ∈ extra, s.timeframeIndex = i) :
    potentialParentsOf i (sigs ++ extra) pred = potentialParentsOf i sigs pred := by
  have hnil : List.filter (fun signal =>
      decide (signal.timeframeIndex < i) && decide (signal.trendType = pred.value) &&
        decide (signal.datetime ≤ pred.datetime)) extra = [] := by
    rw [List.filter_eq_nil_iff]
    intro s hs
    simp [h s hs]
  unfold potentialParentsOf
  rw [List.filter_append, hnil, List.append_nil]

theorem emitOne_append {ap : List (TF × List PredictionEntry)}
    {csv : List CandlestickData} {i : Nat} {tf : TF} {sigs extra : List SignalInfo}
    {pred : PredictionEntry} (h : ∀ s ∈ extra, s.timeframeIndex = i) :
    emitOne ap csv i tf (sigs ++ extra) pred = emitOne ap csv i tf sigs pred := by
  unfold emitOne findValidParent
  rw [potentialParentsOf_append_eq h]

/-! ### The pass over one timeframe as a `filterMap` -/

theorem processPass_eq (ap : List (TF × List PredictionEntry))
    (csv : List CandlestickData) (i : Nat) (tf : TF) (preds : List PredictionEntry) :
    ∀ (sigs : List SignalInfo) (props : List Propagation),
      processPass ap csv i tf preds (sigs, props) =
        (sigs ++ (preds.filterMap (emitOne ap csv i tf sigs)).map Prod.snd,
         props ++ (preds.filterMap (emitOne ap csv i tf sigs)).map Prod.fst) := by
  induction preds with
  | nil => intro sigs props; simp [processPass]
  | cons pred rest ih =>
    intro sigs props
    simp only [processPass]
    cases hemit : emitOne ap csv i tf sigs pred with
    | none => simp [List.filterMap_cons, hemit, ih]
    | some pi =>
      obtain ⟨prop, info⟩ := pi
      have hidx : ∀ s ∈ [info], s.timeframeIndex = i := by
        intro s hs
        obtain ⟨-, -, parent, -, -, -, -, -, -, -, hinfo⟩ := emitOne_some_spec hemit
        simp only [List.mem_singleton] at hs
        rw [hs, hinfo]
        rfl
      have hcongr : rest.filterMap (emitOne ap csv i tf (sigs ++ [info])) =
          rest.filterMap (emitOne ap csv i tf sigs) :=
        List.filterMap_congr (fun a _ => emitOne_append hidx)
      show processPass ap csv i tf rest (sigs ++ [info], props ++ [prop]) = _
      rw [ih, hcongr]
      simp [List.filterMap_cons, hemit]

/-! ### Preservation schemata for the main loops -/

theorem processPass_preserve {ap : List (TF × List PredictionEntry)}
    {csv : List CandlestickData} {i : Nat} {tf : TF}
    (Q : List SignalInfo × List Propagation → Prop) (preds : List PredictionEntry)
    (step : ∀ sigs props pred prop info, pred ∈ preds → Q (sigs, props) →
      emitOne ap csv i tf sigs pred = some (prop, info) →
      Q (sigs ++ [info], props ++ [prop])) :
    ∀ st, Q st → Q (processPass ap csv i tf preds st) := by
  induction preds with
  | nil => intro st hq; simpa [processPass] using hq
  | cons pred rest ih =>
    intro st hq
    obtain ⟨sigs, props⟩ := st
    have step' : ∀ sigs props pred prop info, pred ∈ rest → Q (sigs, props) →
        emitOne ap csv i tf sigs pred = some (prop, info) →
        Q (sigs ++ [info], props ++ [prop]) :=
      fun sigs props pred prop info hm => step sigs props pred prop info
        (List.mem_cons_of_mem _ hm)
    simp only [processPass]
    cases hemit : emitOne ap csv i tf sigs pred with
    | none => exact ih step' (sigs, props) hq
    | some pi =>
      obtain ⟨prop, info⟩ := pi
      exact ih step' (sigs ++ [info], props ++ [prop])
        (step sigs props pred prop info (List.mem_cons_self _ _) hq hemit)

theorem processTimeframes_preserve {ap : List (TF × List PredictionEntry)}
    {csv : List CandlestickData}
    (Q : List SignalInfo × List Propagation → Prop) :
    ∀ (rest : List TF) (i : Nat),
      (∀ (k : Nat) (hk : k < rest.length) sigs props pred prop info,
        pred ∈ predsOf ap (rest.get ⟨k, hk⟩) → Q (sigs, props) →
        emitOne ap csv (i + k) (rest.get ⟨k, hk⟩) sigs pred = some (prop, info) →
        Q (sigs ++ [info], props ++ [prop])) →
      ∀ st, Q st → Q (processTimeframes ap csv i rest st) := by
  intro rest
  induction rest with
  | nil => intro i _ st hq; simpa [processTimeframes] using hq
  | cons tf rest ih =>
    intro i hstep st hq
    simp only [processTimeframes]
    have h0 : Q (processPass ap csv i tf (predsOf ap tf) st) := by
      refine processPass_preserve Q (predsOf ap tf) ?_ st hq
      intro sigs props pred prop info hm hqq hemit
      have := hstep 0 (by simp) sigs props pred prop info
      simp only [List.get] at this
      exact this (by simpa using hm) hqq (by simpa using hemit)
    refine ih (i + 1) ?_ _ h0
    intro k hk sigs props pred prop info hm hqq hemit
    have hk2 : k + 1 < (tf :: rest).length := by simpa using Nat.succ_lt_succ hk
    have := hstep (k + 1) hk2 sigs props pred prop info
    rw [List.get_cons_succ] at this
    have harith : i + (k + 1) = i + 1 + k := by omega
    rw [harith] at this
    exact this hm hqq hemit

/-! ### Lemmas about the initial-indicator scan -/

theorem initialScan_all_zero {priceOf : Int → ℚ} {tf0 : TF}
    {preds : List PredictionEntry} (h : ∀ p ∈ preds, p.value = 0) :
    ∀ ls, initialScan priceOf tf0 ls preds = [] := by
  induction preds with
  | nil => intro ls; rfl
  | cons p rest ih =>
    intro ls
    have hp : p.value = 0 := h p (List.mem_cons_self _ _)
    rw [initialScan, if_neg (by simp [hp])]
    exact ih (fun q hq => h q (List.mem_cons_of_mem _ hq)) ls

theorem initialScan_mem {priceOf : Int → ℚ} {tf0 : TF} :
    ∀ {preds : List PredictionEntry} {ls : Option Int} {ind : InitialIndicator},
      ind ∈ initialScan priceOf tf0 ls preds →
      ind.timeframe = tf0 ∧ ind.end_datetime = none ∧
        ind.open_price = priceOf ind.datetime ∧
        ∃ p ∈ preds, ind.datetime = p.datetime ∧ ind.trend_type = p.value ∧
          p.value ≠ 0 := by
  intro preds
  induction preds with
  | nil => intro ls ind h; exact absurd h (by simp [initialScan])
  | cons p rest ih =>
    intro ls ind h
    rw [initialScan] at h
    by_cases h0 : p.value ≠ 0
    · rw [if_pos h0] at h
      by_cases h1 : ls = none ∨ ls ≠ some p.value
      · rw [if_pos h1] at h
        rcases List.mem_cons.mp h with heq | hmem
        · subst heq
          exact ⟨rfl, rfl, rfl, p, List.mem_cons_self _ _, rfl, rfl, h0⟩
        · obtain ⟨ha, hb, hc, q, hq, hd⟩ := ih hmem
          exact ⟨ha, hb, hc, q, List.mem_cons_of_mem _ hq, hd⟩
      · rw [if_neg h1] at h
        obtain ⟨ha, hb, hc, q, hq, hd⟩ := ih h
        exact ⟨ha, hb, hc, q, List.mem_cons_of_mem _ hq, hd⟩
    · rw [if_neg h0] at h
      obtain ⟨ha, hb, hc, q, hq, hd⟩ := ih h
      exact ⟨ha, hb, hc, q, List.mem_cons_of_mem _ hq, hd⟩

theorem assignEnd_datetime (sp : List PredictionEntry) (ind : InitialIndicator) :
    (assignEnd sp ind).datetime = ind.datetime ∧
      (assignEnd sp ind).trend_type = ind.trend_type ∧
      (assignEnd sp ind).open_price = ind.open_price := by
  unfold assignEnd
  split <;> exact ⟨rfl, rfl, rfl⟩

/-! ### Lemmas about the chain loop on trivial state -/

theorem processTimeframes_nil_state {ap : List (TF × List PredictionEntry)}
    {csv : List CandlestickData} :
    ∀ (rest : List TF) (i : Nat), processTimeframes ap csv i rest ([], []) = ([], []) := by
  intro rest
  induction rest with
  | nil => intro i; rfl
  | cons tf rest ih =>
    intro i
    simp only [processTimeframes]
    have hpass : processPass ap csv i tf (predsOf ap tf) ([], []) = ([], []) := by
      rw [processPass_eq]
      have : (predsOf ap tf).filterMap (emitOne ap csv i tf []) = [] := by
        simp [List.filterMap_eq_nil_iff, emitOne_nil_sigs]
      simp [this]
    rw [hpass]
    exact ih (i + 1)

/-- C9: if the fastest timeframe's signal list contains no non-zero value,
`extractTrendIndicators` returns empty initial indicators and empty
propagations, whatever the slower timeframes contain. -/
theorem extractTrendIndicators_no_nonzero_fastest
    (ap : List (TF × List PredictionEntry)) (sel : List TF)
    (csv : List CandlestickData)
    (h : ∀ p ∈ predsOf ap ((sortedTimeframesOf ap sel).headD ""), p.value = 0) :
    extractTrendIndicators ap sel csv = ([], []) := by
  unfold extractTrendIndicators extractFull
  by_cases hstf : sortedTimeframesOf ap sel = []
  · simp [hstf]
  · have hinds : initialIndicatorsOf ap sel csv = [] := by
      unfold initialIndicatorsOf sortedPredictionsOf
      rw [initialScan_all_zero, List.map_nil]
      intro p hp
      exact h p ((List.perm_insertionSort predTimeLE _).subset hp)
    have hseeds : seedsOf ap sel csv = [] := by
      unfold seedsOf
      rw [hinds]
      rfl
    have hchain : chainStateOf ap sel csv = ([], []) := by
      unfold chainStateOf
      rw [hseeds, processTimeframes_nil_state]
    simp [hstf, hinds, hchain]

/-- Witness for C9 at a concrete input: the fastest timeframe `1s` carries
only zero signals, a slower timeframe carries non-zero ones; the output is
empty. -/
theorem extractTrendIndicators_no_nonzero_fastest_witness :
    extractTrendIndicators
      [("1s", [⟨0, 0⟩, ⟨5, 0⟩]), ("2s", [⟨1, 1⟩, ⟨2, -1⟩])] [] [] = ([], []) :=
  extractTrendIndicators_no_nonzero_fastest _ _ _ (by decide)

/-- C7: every emitted initial indicator's `end_datetime` is the datetime of
the first strictly later opposing signal of the sorted fastest-timeframe
sequence, or the datetime of the last signal of the whole sequence when no
opposing signal follows; it is never `none`. -/
theorem extractTrendIndicators_end_datetime
    (ap : List (TF × List PredictionEntry)) (sel : List TF)
    (csv : List CandlestickData) (ind : InitialIndicator)
    (h : ind ∈ (extractTrendIndicators ap sel csv).1) :
    (ind.end_datetime =
      match (sortedPredictionsOf ap sel).find? (fun p =>
          decide (ind.datetime < p.datetime) && decide (p.value = -ind.trend_type)) with
      | some laterSignal => some laterSignal.datetime
      | none => (sortedPredictionsOf ap sel).getLast?.map (·.datetime)) ∧
      ind.end_datetime ≠ none := by
  unfold extractTrendIndicators extractFull at h
  by_cases hstf : sortedTimeframesOf ap sel = []
  · rw [if_pos hstf] at h
    exact absurd h (by simp)
  · rw [if_neg hstf] at h
    unfold initialIndicatorsOf at h
    obtain ⟨ind0, hind0, hmap⟩ := List.mem_map.mp h
    subst hmap
    obtain ⟨hdt, htt, _⟩ := assignEnd_datetime (sortedPredictionsOf ap sel) ind0
    rw [hdt, htt]
    have hne : sortedPredictionsOf ap sel ≠ [] := by
      intro hnil
      rw [hnil] at hind0
      exact absurd hind0 (by simp [initialScan])
    unfold assignEnd
    cases hfind : (sortedPredictionsOf ap sel).find? (fun p =>
        decide (ind0.datetime < p.datetime) && decide (p.value = -ind0.trend_type)) with
    | some laterSignal => exact ⟨rfl, by simp⟩
    | none =>
      refine ⟨rfl, ?_⟩
      obtain ⟨q, hq⟩ := Option.isSome_iff_exists.mp (List.getLast?_isSome.mpr hne)
      simp [hq]

/-- Witness for C7 at a concrete input: fastest sequence
`[+1@0, -1@5, +1@9]`; the indicator emitted at 0 is in the output and its
`end_datetime` (the opposing signal at 5) is not `none`. -/
theorem extractTrendIndicators_end_datetime_witness :
    (⟨0, 1, "1s", some 5, 0, 0⟩ : InitialIndicator) ∈
        (extractTrendIndicators [("1s", [⟨0, 1⟩, ⟨5, -1⟩, ⟨9, 1⟩])] [] []).1 ∧
      (⟨0, 1, "1s", some 5, 0, 0⟩ : InitialIndicator).end_datetime ≠ none :=
  ⟨by decide,
   (extractTrendIndicators_end_datetime [("1s", [⟨0, 1⟩, ⟨5, -1⟩, ⟨9, 1⟩])] [] []
     ⟨0, 1, "1s", some 5, 0, 0⟩ (by decide)).2⟩

/-! ### The emission rule of the initial scan, state-free -/

/-- The value of the last non-zero signal of a list (the state `lastSignal`
reaches after walking it from `null`). -/
def lastSeenNonZero (l : List PredictionEntry) : Option Int :=
  ((l.filter (fun p => decide (p.value ≠ 0))).getLast?).map (·.value)

/-- One-step state update of the scan: a non-zero value replaces
`lastSignal`, a zero leaves it. -/
def updateLast (ls : Option Int) (p : PredictionEntry) : Option Int :=
  if p.value ≠ 0 then some p.value else ls

/-- The state the scan reaches after a prefix, starting from `ls`. -/
def resumeState (ls : Option Int) (pre : List PredictionEntry) : Option Int :=
  match lastSeenNonZero pre with
  | some v => some v
  | none => ls

theorem resumeState_none (pre : List PredictionEntry) :
    resumeState none pre = lastSeenNonZero pre := by
  unfold resumeState
  cases lastSeenNonZero pre <;> rfl

theorem resumeState_cons (ls : Option Int) (p : PredictionEntry)
    (l : List PredictionEntry) :
    resumeState ls (p :: l) = resumeState (updateLast ls p) l := by
  by_cases h0 : p.value ≠ 0
  · have hdec : decide (p.value ≠ 0) = true := decide_eq_true h0
    have hf : (p :: l).filter (fun p => decide (p.value ≠ 0)) =
        p :: l.filter (fun p => decide (p.value ≠ 0)) := by
      simp only [List.filter_cons, hdec, if_true]
    have hupd : updateLast ls p = some p.value := if_pos h0
    unfold resumeState lastSeenNonZero
    rw [hf, hupd]
    cases hfl : l.filter (fun p => decide (p.value ≠ 0)) with
    | nil => rfl
    | cons q qs =>
      rw [List.getLast?_cons_cons]
      obtain ⟨r, hr⟩ := Option.isSome_iff_exists.mp
        (List.getLast?_isSome.mpr (List.cons_ne_nil q qs))
      rw [hr]
      rfl
  · have hp0 : p.value = 0 := not_not.mp h0
    have hf : (p :: l).filter (fun p => decide (p.value ≠ 0)) =
        l.filter (fun p => decide (p.value ≠ 0)) := by
      simp [List.filter_cons, hp0]
    have hupd : updateLast ls p = ls := if_neg h0
    unfold resumeState lastSeenNonZero
    rw [hf, hupd]

theorem initialScan_append (priceOf : Int → ℚ) (tf0 : TF) :
    ∀ (pre rest : List PredictionEntry) (ls : Option Int),
      initialScan priceOf tf0 ls (pre ++ rest) =
        initialScan priceOf tf0 ls pre ++
          initialScan priceOf tf0 (resumeState ls pre) rest := by
  intro pre
  induction pre with
  | nil =>
    intro rest ls
    simp [initialScan, resumeState, lastSeenNonZero]
  | cons p pre ih =>
    intro rest ls
    rw [List.cons_append, resumeState_cons]
    by_cases h0 : p.value ≠ 0
    · have hupd : updateLast ls p = some p.value := if_pos h0
      rw [hupd]
      by_cases h1 : ls = none ∨ ls ≠ some p.value
      · rw [initialScan, if_pos h0, if_pos h1, initialScan, if_pos h0, if_pos h1,
          ih rest (some p.value), List.cons_append]
      · have hls : ls = some p.value := by
          push_neg at h1
          exact h1.2
        rw [initialScan, if_pos h0, if_neg h1, initialScan, if_pos h0, if_neg h1, hls,
          ih rest (some p.value)]
    · have hupd : updateLast ls p = ls := if_neg h0
      rw [hupd, initialScan, if_neg h0, initialScan, if_neg h0, ih rest ls]

/-- C6: on a fastest-timeframe scan an indicator is emitted at a signal
exactly when its value is non-zero and differs from the last previously seen
non-zero value (the very first non-zero signal always emits); zero-valued
signals emit nothing and do not update the carried state.  Second conjunct:
the spec's example `[+1@T1, 0@T2, +1@T3]` emits exactly one indicator, at
`T1`.  (`extractTrendIndicators` applies `initialScan` with initial state
`none` to the time-sorted fastest-timeframe sequence and then maps
`assignEnd` over the result one-to-one, so which signals emit is exactly
what this equation describes.) -/
theorem initialScan_emission_rule :
    (∀ (priceOf : Int → ℚ) (tf0 : TF) (pre : List PredictionEntry)
        (q : PredictionEntry) (post : List PredictionEntry),
      initialScan priceOf tf0 none (pre ++ q :: post) =
        initialScan priceOf tf0 none pre ++
          (if q.value ≠ 0 ∧ lastSeenNonZero pre ≠ some q.value
            then [mkInitialIndicator priceOf tf0 q] else []) ++
          initialScan priceOf tf0
            (if q.value = 0 then lastSeenNonZero pre else some q.value) post) ∧
    (∀ (priceOf : Int → ℚ) (tf0 : TF) (t1 t2 t3 : Int),
      (initialScan priceOf tf0 none [⟨t1, 1⟩, ⟨t2, 0⟩, ⟨t3, 1⟩]).map
        (fun i => i.datetime) = [t1]) := by
  constructor
  · intro priceOf tf0 pre q post
    rw [initialScan_append, resumeState_none, List.append_assoc]
    congr 1
    by_cases h0 : q.value ≠ 0
    · by_cases h1 : lastSeenNonZero pre ≠ some q.value
      · rw [initialScan, if_pos h0, if_pos (Or.inr h1), if_pos ⟨h0, h1⟩,
          if_neg (by simpa using h0), List.singleton_append]
      · push_neg at h1
        rw [initialScan, if_pos h0, if_neg (by simp [h1]), if_neg (by simp [h1]),
          if_neg (by simpa using h0), List.nil_append, h1]
    · push_neg at h0
      rw [initialScan, if_neg (by simpa using h0), if_neg (by simp [h0]),
        if_pos h0, List.nil_append]
  · intro priceOf tf0 t1 t2 t3
    simp [initialScan, mkInitialIndicator]

/-! ### Facts about seeds -/

theorem seedSignals_mem {f : TF → Nat} {inds : List InitialIndicator}
    {s : SignalInfo} (h : s ∈ seedSignals f inds) :
    s.propagationLevel = 0 ∧ s.chainInitialPrice = s.openPrice ∧
      s.timeframeIndex = f s.timeframe ∧
      ∃ ind ∈ inds, s.datetime = ind.datetime ∧ s.timeframe = ind.timeframe ∧
        s.trendType = ind.trend_type ∧ s.openPrice = ind.open_price := by
  unfold seedSignals at h
  obtain ⟨ki, hki, rfl⟩ := List.mem_map.mp h
  refine ⟨rfl, rfl, rfl, ki.2, ?_, rfl, rfl, rfl, rfl⟩
  exact List.getElem?_mem (List.mem_enum_iff_getElem?.mp hki)

theorem seedsOf_mem {ap : List (TF × List PredictionEntry)} {sel : List TF}
    {csv : List CandlestickData} {s : SignalInfo} (h : s ∈ seedsOf ap sel csv) :
    s.propagationLevel = 0 ∧ s.chainInitialPrice = s.openPrice ∧
      s.openPrice = getOpenPriceAtDatetime csv s.datetime := by
  obtain ⟨h0, h1, _, ind, hind, hdt, _, _, hop⟩ := seedSignals_mem h
  unfold initialIndicatorsOf at hind
  obtain ⟨ind0, hind0, rfl⟩ := List.mem_map.mp hind
  obtain ⟨_, _, hc, _⟩ := initialScan_mem hind0
  obtain ⟨hdt2, _, hop2⟩ := assignEnd_datetime (sortedPredictionsOf ap sel) ind0
  refine ⟨h0, h1, ?_⟩
  rw [hop, hop2, hc, hdt, hdt2]

/-- C3: for every emitted propagation there is a level-0 seed of its chain
(same `propagation_id`) whose `chainInitialPrice` is its own open price —
resolved through the price lookup at the origin's timestamp, hence `0` when
the origin's timestamp has no candle — and `directional_change_percent` is
`(open_price − originPrice) / originPrice × 100` computed against that seed's
price, with `0` when the origin price is `0`. -/
theorem extractTrendIndicators_origin_relative_pct
    (ap : List (TF × List PredictionEntry)) (sel : List TF)
    (csv : List CandlestickData) (p : Propagation)
    (hp : p ∈ (extractTrendIndicators ap sel csv).2) :
    ∃ s0 ∈ seedsOf ap sel csv,
      s0.propagationId = p.propagation_id ∧ s0.propagationLevel = 0 ∧
        s0.chainInitialPrice = s0.openPrice ∧
        s0.openPrice = getOpenPriceAtDatetime csv s0.datetime ∧
        p.directional_change_percent =
          (if s0.openPrice = 0 then 0
           else (p.open_price - s0.openPrice) / s0.openPrice * 100) := by
  unfold extractTrendIndicators extractFull at hp
  by_cases hstf : sortedTimeframesOf ap sel = []
  · rw [if_pos hstf] at hp
    exact absurd hp (by simp)
  · rw [if_neg hstf] at hp
    have key :
        (∀ s ∈ (chainStateOf ap sel csv).1, ∃ s0 ∈ seedsOf ap sel csv,
          s0.propagationId = s.propagationId ∧
            s0.chainInitialPrice = s.chainInitialPrice) ∧
        (∀ q ∈ (chainStateOf ap sel csv).2, ∃ s0 ∈ seedsOf ap sel csv,
          s0.propagationId = q.propagation_id ∧
            q.directional_change_percent =
              (if s0.chainInitialPrice = 0 then 0
               else (q.open_price - s0.chainInitialPrice) /
                s0.chainInitialPrice * 100)) := by
      unfold chainStateOf
      refine processTimeframes_preserve
        (fun st =>
          (∀ s ∈ st.1, ∃ s0 ∈ seedsOf ap sel csv,
            s0.propagationId = s.propagationId ∧
              s0.chainInitialPrice = s.chainInitialPrice) ∧
          (∀ q ∈ st.2, ∃ s0 ∈ seedsOf ap sel csv,
            s0.propagationId = q.propagation_id ∧
              q.directional_change_percent =
                (if s0.chainInitialPrice = 0 then 0
                 else (q.open_price - s0.chainInitialPrice) /
                  s0.chainInitialPrice * 100)))
        _ 1 ?_ _ ⟨fun s hs => ⟨s, hs, rfl, rfl⟩, by simp⟩
      intro k hk sigs props pred prop info _ hq hemit
      obtain ⟨hqs, hqp⟩ := hq
      obtain ⟨_, _, parent, _, hparent_mem, _, _, _, _, hprop, hinfo⟩ :=
        emitOne_some_spec hemit
      obtain ⟨s0, hs0, hid, hci⟩ := hqs parent hparent_mem
      constructor
      · intro s hs
        rcases List.mem_append.mp hs with hold | hnew
        · exact hqs s hold
        · have : s = info := by simpa using hnew
          subst this
          rw [hinfo]
          exact ⟨s0, hs0, hid, hci⟩
      · intro q hqmem
        rcases List.mem_append.mp hqmem with hold | hnew
        · exact hqp q hold
        · have : q = prop := by simpa using hnew
          subst this
          rw [hprop]
          refine ⟨s0, hs0, hid, ?_⟩
          unfold mkPropagation
          by_cases hz : parent.chainInitialPrice = 0
          · rw [hci, if_neg (by simp [hz]), if_pos hz]
          · rw [hci, if_pos hz, if_neg hz]
    obtain ⟨s0, hs0, hid, hdcp⟩ := key.2 p hp
    obtain ⟨hl0, hcio, hopd⟩ := seedsOf_mem hs0
    refine ⟨s0, hs0, hid, hl0, hcio, hopd, ?_⟩
    rw [hdcp, hcio]

unseal Rat.mul Rat.inv Rat.sub Rat.add in
/-- Witness for C3 at a concrete input: a three-level chain with origin price
100 and prices 110 and 90 at levels 1 and 2; the level-2 percentage is −10,
measured against 100, not 110.  (The rational field operations are sealed
irreducible upstream; they are unsealed so `decide` can evaluate them.) -/
theorem extractTrendIndicators_origin_relative_pct_witness :
    (⟨"Prop_1", 2, 7, 1, "2s", "3s", 90, -10⟩ : Propagation) ∈
        (extractTrendIndicators
          [("1s", [⟨0, 1⟩]), ("2s", [⟨5, 1⟩]), ("3s", [⟨7, 1⟩])] []
          [⟨0, 100⟩, ⟨5, 110⟩, ⟨7, 90⟩]).2 ∧
      ∃ s0 ∈ seedsOf [("1s", [⟨0, 1⟩]), ("2s", [⟨5, 1⟩]), ("3s", [⟨7, 1⟩])] []
          [⟨0, 100⟩, ⟨5, 110⟩, ⟨7, 90⟩],
        s0.propagationId = "Prop_1" ∧ s0.propagationLevel = 0 ∧
          s0.chainInitialPrice = s0.openPrice ∧
          s0.openPrice = getOpenPriceAtDatetime [⟨0, 100⟩, ⟨5, 110⟩, ⟨7, 90⟩] s0.datetime ∧
          (-10 : ℚ) = (if s0.openPrice = 0 then 0
            else ((90 : ℚ) - s0.openPrice) / s0.openPrice * 100) :=
  ⟨by decide,
   extractTrendIndicators_origin_relative_pct
     [("1s", [⟨0, 1⟩]), ("2s", [⟨5, 1⟩]), ("3s", [⟨7, 1⟩])] []
     [⟨0, 100⟩, ⟨5, 110⟩, ⟨7, 90⟩] ⟨"Prop_1", 2, 7, 1, "2s", "3s", 90, -10⟩ (by decide)⟩

/-! ### Timeframe ranks -/

theorem sortedTimeframesOf_nodup {ap : List (TF × List PredictionEntry)}
    {sel : List TF} (h : (ap.map Prod.fst).Nodup) :
    (sortedTimeframesOf ap sel).Nodup := by
  unfold sortedTimeframesOf
  refine (List.perm_insertionSort timeframeLE _).nodup_iff.mpr ?_
  split
  · exact h.filter _
  · exact h

theorem timeframeIndexOf_get {stf : List TF} (hnd : stf.Nodup) {k : Nat}
    (hk : k < stf.length) : timeframeIndexOf stf (stf.get ⟨k, hk⟩) = k := by
  have hmem : (k, stf.get ⟨k, hk⟩) ∈ stf.enum := by
    rw [List.mem_enum_iff_getElem?]
    simp
  have hmemr : (k, stf.get ⟨k, hk⟩) ∈ stf.enum.reverse := List.mem_reverse.mpr hmem
  have hisSome : (stf.enum.reverse.find? (fun it => it.2 == stf.get ⟨k, hk⟩)).isSome :=
    List.find?_isSome.mpr ⟨_, hmemr, by simp⟩
  obtain ⟨⟨j, tf2⟩, hfind⟩ := Option.isSome_iff_exists.mp hisSome
  have heq : tf2 = stf.get ⟨k, hk⟩ := by
    have := List.find?_some hfind
    simpa using this
  have hjmem : (j, tf2) ∈ stf.enum := List.mem_reverse.mp (List.mem_of_find?_eq_some hfind)
  have hjlt : j < stf.length := by simpa using List.fst_lt_of_mem_enum hjmem
  have hjget : stf[j]? = some tf2 := by
    have := List.mem_enum_iff_getElem?.mp hjmem
    simpa using this
  have hjk : j = k := by
    apply List.getElem?_inj hjlt hnd
    rw [hjget, heq]
    simp
  unfold timeframeIndexOf
  rw [hfind]
  exact hjk

/-- C8: for every emitted propagation, the rank of `lower_freq` in the
ascending-by-seconds timeframe ordering is strictly greater than the rank of
`higher_freq`; no chain link steps backward or sideways in timeframe
ordering.  (The `Nodup` hypothesis records that the timeframe keys of the
input come from a JS object, whose keys are pairwise distinct.) -/
theorem extractTrendIndicators_timeframe_monotone
    (ap : List (TF × List PredictionEntry)) (sel : List TF)
    (csv : List CandlestickData) (hnd : (ap.map Prod.fst).Nodup)
    (p : Propagation) (hp : p ∈ (extractTrendIndicators ap sel csv).2) :
    timeframeIndexOf (sortedTimeframesOf ap sel) p.higher_freq <
      timeframeIndexOf (sortedTimeframesOf ap sel) p.lower_freq := by
  unfold extractTrendIndicators extractFull at hp
  by_cases hstf : sortedTimeframesOf ap sel = []
  · rw [if_pos hstf] at hp
    exact absurd hp (by simp)
  · rw [if_neg hstf] at hp
    have hndstf : (sortedTimeframesOf ap sel).Nodup := sortedTimeframesOf_nodup hnd
    have key : (∀ s ∈ (chainStateOf ap sel csv).1,
          s.timeframeIndex = timeframeIndexOf (sortedTimeframesOf ap sel) s.timeframe) ∧
        (∀ q ∈ (chainStateOf ap sel csv).2,
          timeframeIndexOf (sortedTimeframesOf ap sel) q.higher_freq <
            timeframeIndexOf (sortedTimeframesOf ap sel) q.lower_freq) := by
      unfold chainStateOf
      refine processTimeframes_preserve
        (fun st =>
          (∀ s ∈ st.1,
            s.timeframeIndex = timeframeIndexOf (sortedTimeframesOf ap sel) s.timeframe) ∧
          (∀ q ∈ st.2,
            timeframeIndexOf (sortedTimeframesOf ap sel) q.higher_freq <
              timeframeIndexOf (sortedTimeframesOf ap sel) q.lower_freq))
        _ 1 ?_ _ ⟨fun s hs => (seedSignals_mem hs).2.2.1, by simp⟩
      intro k hk sigs props pred prop info _ hq hemit
      obtain ⟨hqs, hqp⟩ := hq
      obtain ⟨_, _, parent, _, hpmem, hpidx, _, _, _, hprop, hinfo⟩ :=
        emitOne_some_spec hemit
      have hk2 : 1 + k < (sortedTimeframesOf ap sel).length := by
        have hlen := hk
        rw [List.length_drop] at hlen
        omega
      have hknat : k + 1 = 1 + k := Nat.add_comm k 1
      have hgetr : ((sortedTimeframesOf ap sel).drop 1).get ⟨k, hk⟩ =
          (sortedTimeframesOf ap sel).get ⟨1 + k, hk2⟩ := by
        simp [List.get_eq_getElem, hknat]
      have hidxcur : timeframeIndexOf (sortedTimeframesOf ap sel)
          (((sortedTimeframesOf ap sel).drop 1).get ⟨k, hk⟩) = 1 + k := by
        rw [hgetr]
        exact timeframeIndexOf_get hndstf hk2
      constructor
      · intro s hs
        rcases List.mem_append.mp hs with hold | hnew
        · exact hqs s hold
        · have : s = info := by simpa using hnew
          subst this
          rw [hinfo]
          exact hidxcur.symm
      · intro q hqm
        rcases List.mem_append.mp hqm with hold | hnew
        · exact hqp q hold
        · have : q = prop := by simpa using hnew
          subst this
          rw [hprop]
          show timeframeIndexOf (sortedTimeframesOf ap sel) parent.timeframe <
            timeframeIndexOf (sortedTimeframesOf ap sel)
              (((sortedTimeframesOf ap sel).drop 1).get ⟨k, hk⟩)
          rw [hidxcur, ← hqs parent hpmem]
          exact hpidx
    exact key.2 p hp

/-- Witness for C8 at a concrete input with three timeframes: the level-1
propagation from `1s` to `2s` satisfies rank(`1s`) < rank(`2s`). -/
theorem extractTrendIndicators_timeframe_monotone_witness :
    (⟨"Prop_1", 1, 5, 1, "1s", "2s", 0, 0⟩ : Propagation) ∈
        (extractTrendIndicators
          [("1s", [⟨0, 1⟩]), ("2s", [⟨5, 1⟩]), ("3s", [⟨7, 1⟩])] [] []).2 ∧
      timeframeIndexOf
          (sortedTimeframesOf [("1s", [⟨0, 1⟩]), ("2s", [⟨5, 1⟩]), ("3s", [⟨7, 1⟩])] [])
          "1s" <
        timeframeIndexOf
          (sortedTimeframesOf [("1s", [⟨0, 1⟩]), ("2s", [⟨5, 1⟩]), ("3s", [⟨7, 1⟩])] [])
          "2s" :=
  ⟨by decide,
   extractTrendIndicators_timeframe_monotone
     [("1s", [⟨0, 1⟩]), ("2s", [⟨5, 1⟩]), ("3s", [⟨7, 1⟩])] [] [] (by decide)
     ⟨"Prop_1", 1, 5, 1, "1s", "2s", 0, 0⟩ (by decide)⟩

/-! ### No intervening opposition on the parent's timeframe -/

theorem hasOpposingSignal_eq_false_iff {ap : List (TF × List PredictionEntry)}
    {parent : SignalInfo} {t : Int}
    (h : hasOpposingSignal ap parent t = false) :
    ∀ r ∈ predsOf ap parent.timeframe,
      ¬(parent.datetime < r.datetime ∧ r.datetime ≤ t ∧
        r.value = -parent.trendType) := by
  intro r hr hcon
  unfold hasOpposingSignal at h
  rw [List.any_eq_false] at h
  have h2 := h r hr
  simp only [Bool.and_eq_true, decide_eq_true_eq] at h2
  exact h2 ⟨⟨hcon.1, hcon.2.1⟩, hcon.2.2⟩

/-- C2: every emitted propagation arises from a parent tracked signal whose
own timeframe's prediction list contains no signal of the opposite direction
strictly after the parent's timestamp and at or before the confirming
signal's timestamp — the validity check of the candidate loop. -/
theorem extractTrendIndicators_no_intervening_opposition
    (ap : List (TF × List PredictionEntry)) (sel : List TF)
    (csv : List CandlestickData) (p : Propagation)
    (hp : p ∈ (extractTrendIndicators ap sel csv).2) :
    ∃ parent ∈ (extractFull ap sel csv).2.2,
      p.higher_freq = parent.timeframe ∧ parent.trendType = p.trend_type ∧
        p.propagation_level = parent.propagationLevel + 1 ∧
        p.propagation_id = parent.propagationId ∧ parent.datetime ≤ p.datetime ∧
        ∀ r ∈ predsOf ap p.higher_freq,
          ¬(parent.datetime < r.datetime ∧ r.datetime ≤ p.datetime ∧
            r.value = -p.trend_type) := by
  unfold extractTrendIndicators extractFull at hp
  unfold extractFull
  by_cases hstf : sortedTimeframesOf ap sel = []
  · rw [if_pos hstf] at hp
    exact absurd hp (by simp)
  · rw [if_neg hstf] at hp
    rw [if_neg hstf]
    have key : ∀ q ∈ (chainStateOf ap sel csv).2, ∃ parent ∈ (chainStateOf ap sel csv).1,
        q.higher_freq = parent.timeframe ∧ parent.trendType = q.trend_type ∧
          q.propagation_level = parent.propagationLevel + 1 ∧
          q.propagation_id = parent.propagationId ∧ parent.datetime ≤ q.datetime ∧
          ∀ r ∈ predsOf ap q.higher_freq,
            ¬(parent.datetime < r.datetime ∧ r.datetime ≤ q.datetime ∧
              r.value = -q.trend_type) := by
      unfold chainStateOf
      refine processTimeframes_preserve
        (fun st => ∀ q ∈ st.2, ∃ parent ∈ st.1,
          q.higher_freq = parent.timeframe ∧ parent.trendType = q.trend_type ∧
            q.propagation_level = parent.propagationLevel + 1 ∧
            q.propagation_id = parent.propagationId ∧ parent.datetime ≤ q.datetime ∧
            ∀ r ∈ predsOf ap q.higher_freq,
              ¬(parent.datetime < r.datetime ∧ r.datetime ≤ q.datetime ∧
                r.value = -q.trend_type))
        _ 1 ?_ _ (by simp)
      intro k hk sigs props pred prop info _ hq hemit
      intro q hqm
      rcases List.mem_append.mp hqm with hold | hnew
      · obtain ⟨parent, hpm, hbody⟩ := hq q hold
        exact ⟨parent, List.mem_append_left _ hpm, hbody⟩
      · have : q = prop := by simpa using hnew
        subst this
        obtain ⟨_, _, parent, _, hpmem, _, htt, hdt, hopp, hprop, _⟩ :=
          emitOne_some_spec hemit
        refine ⟨parent, List.mem_append_left _ hpmem, ?_⟩
        rw [hprop]
        refine ⟨rfl, htt, rfl, rfl, hdt, ?_⟩
        intro r hr hcon
        have hval : (mkPropagation csv (((sortedTimeframesOf ap sel).drop 1).get
            ⟨k, hk⟩) parent pred).trend_type = pred.value := rfl
        rw [hval] at hcon
        have hr2 : r ∈ predsOf ap parent.timeframe := hr
        refine hasOpposingSignal_eq_false_iff hopp r hr2 ⟨hcon.1, hcon.2.1, ?_⟩
        rw [htt]
        exact hcon.2.2
    obtain ⟨parent, hpm, hbody⟩ := key p hp
    exact ⟨parent, hpm, hbody⟩

/-- Witness for C2 at a concrete input: the level-1 propagation of a
two-timeframe chain attaches to a tracked parent on `1s` with no opposing
`1s`-signal in between. -/
theorem extractTrendIndicators_no_intervening_opposition_witness :
    (⟨"Prop_1", 1, 5, 1, "1s", "2s", 0, 0⟩ : Propagation) ∈
        (extractTrendIndicators [("1s", [⟨0, 1⟩]), ("2s", [⟨5, 1⟩])] [] []).2 ∧
      ∃ parent ∈ (extractFull [("1s", [⟨0, 1⟩]), ("2s", [⟨5, 1⟩])] [] []).2.2,
        ("1s" : TF) = parent.timeframe ∧ parent.trendType = 1 ∧
          (1 : Nat) = parent.propagationLevel + 1 ∧
          ("Prop_1" : String) = parent.propagationId ∧ parent.datetime ≤ 5 ∧
          ∀ r ∈ predsOf [("1s", [⟨0, 1⟩]), ("2s", [⟨5, 1⟩])] "1s",
            ¬(parent.datetime < r.datetime ∧ r.datetime ≤ 5 ∧ r.value = -1) :=
  ⟨by decide,
   extractTrendIndicators_no_intervening_opposition
     [("1s", [⟨0, 1⟩]), ("2s", [⟨5, 1⟩])] [] []
     ⟨"Prop_1", 1, 5, 1, "1s", "2s", 0, 0⟩ (by decide)⟩

/-! ### Propagation-level sequences per chain id -/

/-- The `propagation_level` values carried by a given `propagation_id`, in
emission order. -/
def levelsFor (props : List Propagation) (id : String) : List Nat :=
  (props.filter (fun p => decide (p.propagation_id = id))).map
    (fun p => p.propagation_level)

/-- A level sequence as the chain loop produces it: every element is at
least 1, and each element exceeds the maximum of the preceding elements by
at most 1.  At `k = 0` this forces the first element to be exactly 1. -/
def boundedLevelRun (l : List Nat) : Prop :=
  ∀ (k : Nat) (hk : k < l.length), 1 ≤ l[k] ∧ l[k] ≤ (l.take k).foldr max 0 + 1

theorem foldr_max_append (l : List Nat) (a : Nat) :
    (l ++ [a]).foldr max 0 = max (l.foldr max 0) a := by
  induction l with
  | nil => simp [Nat.max_comm]
  | cons b l ih => simp [ih, Nat.max_assoc]

theorem boundedLevelRun_append {l : List Nat} {a : Nat}
    (hl : boundedLevelRun l) (h1 : 1 ≤ a) (h2 : a ≤ l.foldr max 0 + 1) :
    boundedLevelRun (l ++ [a]) := by
  intro k hk
  have hk2 : k < l.length + 1 := by simpa using hk
  by_cases hkl : k < l.length
  · have hget : (l ++ [a])[k] = l[k] := List.getElem_append_left hkl
    have htake : (l ++ [a]).take k = l.take k :=
      List.take_append_of_le_length (le_of_lt hkl)
    rw [hget, htake]
    exact hl k hkl
  · have hkeq : k = l.length := by omega
    have hget : (l ++ [a])[k] = a := List.getElem_concat_length l a k hkeq _
    have htake : (l ++ [a]).take k = l := by
      rw [hkeq]
      exact List.take_left l [a]
    rw [hget, htake]
    exact ⟨h1, h2⟩

theorem levelsFor_append_single (props : List Propagation) (p : Propagation)
    (X : String) :
    levelsFor (props ++ [p]) X =
      levelsFor props X ++
        (if p.propagation_id = X then [p.propagation_level] else []) := by
  unfold levelsFor
  rw [List.filter_append]
  by_cases h : p.propagation_id = X
  · simp [h]
  · simp [h]

/-- C1 (amended): for every `propagation_id`, the emitted level sequence is
a `boundedLevelRun`: every level is ≥ 1, the first level emitted with the id
is exactly 1, and each later level is at most one more than the maximum
level previously emitted with that id.  The sequence need not be strictly
increasing: when a higher-level candidate parent is invalidated by an
opposing signal, the loop falls back to a lower-level parent of the same
chain and can emit an already-used level again. -/
theorem extractTrendIndicators_level_run
    (ap : List (TF × List PredictionEntry)) (sel : List TF)
    (csv : List CandlestickData) (X : String) :
    boundedLevelRun (levelsFor (extractTrendIndicators ap sel csv).2 X) := by
  unfold extractTrendIndicators extractFull
  by_cases hstf : sortedTimeframesOf ap sel = []
  · rw [if_pos hstf]
    intro k hk
    simp [levelsFor] at hk
  · rw [if_neg hstf]
    have key : ∀ Y, (∀ s ∈ (chainStateOf ap sel csv).1, s.propagationId = Y →
          s.propagationLevel ≤ (levelsFor (chainStateOf ap sel csv).2 Y).foldr max 0) ∧
        boundedLevelRun (levelsFor (chainStateOf ap sel csv).2 Y) := by
      unfold chainStateOf
      refine processTimeframes_preserve
        (fun st => ∀ Y, (∀ s ∈ st.1, s.propagationId = Y →
            s.propagationLevel ≤ (levelsFor st.2 Y).foldr max 0) ∧
          boundedLevelRun (levelsFor st.2 Y))
        _ 1 ?_ _ ?_
      · intro k hk sigs props pred prop info _ hq hemit Y
        dsimp only at hq
        obtain ⟨_, _, parent, _, hpmem, _, _, _, _, hprop, hinfo⟩ :=
          emitOne_some_spec hemit
        obtain ⟨hbound, hrun⟩ := hq Y
        have hpropid : prop.propagation_id = parent.propagationId := by rw [hprop]; rfl
        have hproplvl : prop.propagation_level = parent.propagationLevel + 1 := by
          rw [hprop]; rfl
        have hinfoid : info.propagationId = parent.propagationId := by rw [hinfo]; rfl
        have hinfolvl : info.propagationLevel = parent.propagationLevel + 1 := by
          rw [hinfo]; rfl
        by_cases hY : prop.propagation_id = Y
        · have hlev : levelsFor (props ++ [prop]) Y =
              levelsFor props Y ++ [prop.propagation_level] := by
            rw [levelsFor_append_single, if_pos hY]
          have hparbound : parent.propagationLevel ≤ (levelsFor props Y).foldr max 0 :=
            hbound parent hpmem (by rw [← hpropid, hY])
          have hmax : (levelsFor (props ++ [prop]) Y).foldr max 0 =
              max ((levelsFor props Y).foldr max 0) prop.propagation_level := by
            rw [hlev, foldr_max_append]
          constructor
          · intro s hs hsid
            rcases List.mem_append.mp hs with hold | hnew
            · have := hbound s hold hsid
              rw [hmax]
              omega
            · have : s = info := by simpa using hnew
              subst this
              rw [hmax, hinfolvl, ← hproplvl]
              omega
          · rw [hlev]
            refine boundedLevelRun_append hrun ?_ ?_
            · rw [hproplvl]; omega
            · rw [hproplvl]; omega
        · have hlev : levelsFor (props ++ [prop]) Y = levelsFor props Y := by
            rw [levelsFor_append_single, if_neg hY, List.append_nil]
          rw [hlev]
          constructor
          · intro s hs hsid
            rcases List.mem_append.mp hs with hold | hnew
            · exact hbound s hold hsid
            · have : s = info := by simpa using hnew
              subst this
              exact absurd (by rw [← hsid, hinfoid, ← hpropid]) hY
          · exact hrun
      · intro Y
        constructor
        · intro s hs _
          rw [(seedsOf_mem hs).1]
          exact Nat.zero_le _
        · intro k hk
          simp [levelsFor] at hk
    exact (key X).2

/-- C1 counterexample: with fastest timeframe `1s = [+1@0]`,
`2s = [+1@5, -1@6]`, `3s = [+1@7]`, the chain `Prop_1` first confirms on
`2s` at level 1; the `3s` signal prefers the level-1 parent, finds the
opposing `-1@6` on `2s` in between, falls back to the level-0 seed, and
emits level 1 again — the emitted level sequence for `Prop_1` is `[1, 1]`,
not strictly increasing by 1 per step. -/
theorem extractTrendIndicators_level_run_counterexample :
    levelsFor (extractTrendIndicators
        [("1s", [⟨0, 1⟩]), ("2s", [⟨5, 1⟩, ⟨6, -1⟩]), ("3s", [⟨7, 1⟩])] [] []).2
        "Prop_1" = [1, 1] ∧
      ¬ (∀ id : String,
        levelsFor (extractTrendIndicators
            [("1s", [⟨0, 1⟩]), ("2s", [⟨5, 1⟩, ⟨6, -1⟩]), ("3s", [⟨7, 1⟩])] [] []).2 id =
          List.range' 1 (levelsFor (extractTrendIndicators
            [("1s", [⟨0, 1⟩]), ("2s", [⟨5, 1⟩, ⟨6, -1⟩]), ("3s", [⟨7, 1⟩])] [] []).2
            id).length) :=
  ⟨by decide, fun h => absurd (h "Prop_1") (by decide)⟩

/-! ### Self-timeframe repeat suppression -/

theorem assignEnd_timeframe (sp : List PredictionEntry) (ind : InitialIndicator) :
    (assignEnd sp ind).timeframe = ind.timeframe := by
  unfold assignEnd
  split <;> rfl

theorem headD_eq_get {stf : List TF} (h : stf ≠ []) (h0 : 0 < stf.length) :
    stf.headD "" = stf.get ⟨0, h0⟩ := by
  cases stf with
  | nil => exact absurd rfl h
  | cons a l => rfl

theorem seedsOf_timeframe {ap : List (TF × List PredictionEntry)} {sel : List TF}
    {csv : List CandlestickData} {s : SignalInfo} (h : s ∈ seedsOf ap sel csv) :
    s.timeframe = (sortedTimeframesOf ap sel).headD "" := by
  obtain ⟨_, _, _, ind, hind, _, htf, _, _⟩ := seedSignals_mem h
  unfold initialIndicatorsOf at hind
  obtain ⟨ind0, hind0, rfl⟩ := List.mem_map.mp hind
  obtain ⟨htf0, _⟩ := initialScan_mem hind0
  rw [htf, assignEnd_timeframe, htf0]

/-- C5: on a non-fastest timeframe, a non-zero signal preceded by a
same-value signal strictly earlier on the same timeframe produces no
propagation and is never added to the tracked-signal list, even if a valid
parent exists.  (The `Nodup` hypothesis records that the timeframe keys of
the input come from a JS object, whose keys are pairwise distinct.) -/
theorem extractTrendIndicators_repeat_suppression
    (ap : List (TF × List PredictionEntry)) (sel : List TF)
    (csv : List CandlestickData) (hnd : (ap.map Prod.fst).Nodup)
    (tf : TF) (k : Nat) (hk : k < (sortedTimeframesOf ap sel).length)
    (hkr : (sortedTimeframesOf ap sel).get ⟨k, hk⟩ = tf) (hk0 : 0 < k)
    (S : PredictionEntry) (hS : S ∈ predsOf ap tf) (hSnz : S.value ≠ 0)
    (hrep : ∃ q ∈ predsOf ap tf, q.datetime < S.datetime ∧ q.value = S.value) :
    (∀ p ∈ (extractTrendIndicators ap sel csv).2,
      ¬(p.lower_freq = tf ∧ p.datetime = S.datetime ∧ p.trend_type = S.value)) ∧
    (∀ s ∈ (extractFull ap sel csv).2.2,
      ¬(s.timeframe = tf ∧ s.datetime = S.datetime ∧ s.trendType = S.value)) := by
  have hndstf : (sortedTimeframesOf ap sel).Nodup := sortedTimeframesOf_nodup hnd
  have hstfne : sortedTimeframesOf ap sel ≠ [] := by
    intro hnil
    rw [hnil] at hk
    exact absurd hk (by simp)
  unfold extractTrendIndicators extractFull
  rw [if_neg hstfne]
  have key : (∀ p ∈ (chainStateOf ap sel csv).2,
        ¬(p.lower_freq = tf ∧ p.datetime = S.datetime ∧ p.trend_type = S.value)) ∧
      (∀ s ∈ (chainStateOf ap sel csv).1,
        ¬(s.timeframe = tf ∧ s.datetime = S.datetime ∧ s.trendType = S.value)) := by
    unfold chainStateOf
    refine processTimeframes_preserve
      (fun st => (∀ p ∈ st.2,
          ¬(p.lower_freq = tf ∧ p.datetime = S.datetime ∧ p.trend_type = S.value)) ∧
        (∀ s ∈ st.1,
          ¬(s.timeframe = tf ∧ s.datetime = S.datetime ∧ s.trendType = S.value)))
      _ 1 ?_ _ ⟨by simp, ?_⟩
    · intro j hj sigs props pred prop info hpred hq hemit
      dsimp only at hq
      obtain ⟨hqp, hqs⟩ := hq
      have hj2 : 1 + j < (sortedTimeframesOf ap sel).length := by
        have hlen := hj
        rw [List.length_drop] at hlen
        omega
      have hjnat : j + 1 = 1 + j := Nat.add_comm j 1
      have hgetr : ((sortedTimeframesOf ap sel).drop 1).get ⟨j, hj⟩ =
          (sortedTimeframesOf ap sel).get ⟨1 + j, hj2⟩ := by
        simp [List.get_eq_getElem, hjnat]
      have hcontr : ¬(((sortedTimeframesOf ap sel).drop 1).get ⟨j, hj⟩ = tf ∧
          pred.datetime = S.datetime ∧ pred.value = S.value) := by
        rintro ⟨htfj, hdt, hvv⟩
        obtain ⟨q, hqmem, hqdt, hqv⟩ := hrep
        have hsup : (previousSameTypeSignal ap
            (((sortedTimeframesOf ap sel).drop 1).get ⟨j, hj⟩) pred).isSome := by
          refine previousSameTypeSignal_isSome ⟨q, ?_, ?_, ?_, ?_⟩
          · rw [htfj]; exact hqmem
          · rw [hdt]; exact hqdt
          · rw [hvv]; exact hqv
          · rw [hqv, ← hvv]
            intro h0
            exact hSnz (hvv ▸ h0)
        rw [emitOne_none_of_prev hsup] at hemit
        exact absurd hemit (by simp)
      obtain ⟨_, _, parent, _, _, _, _, _, _, hprop, hinfo⟩ := emitOne_some_spec hemit
      constructor
      · intro p hp
        rcases List.mem_append.mp hp with hold | hnew
        · exact hqp p hold
        · have : p = prop := by simpa using hnew
          subst this
          rw [hprop]
          intro hcon
          exact hcontr hcon
      · intro s hs
        rcases List.mem_append.mp hs with hold | hnew
        · exact hqs s hold
        · have : s = info := by simpa using hnew
          subst this
          rw [hinfo]
          intro hcon
          exact hcontr hcon
    · intro s hs
      rintro ⟨htfs, _, _⟩
      have h0 : 0 < (sortedTimeframesOf ap sel).length := Nat.lt_of_lt_of_le hk0 (le_of_lt hk)
      have hseed := seedsOf_timeframe hs
      rw [headD_eq_get hstfne h0] at hseed
      have : (⟨0, h0⟩ : Fin (sortedTimeframesOf ap sel).length) = ⟨k, hk⟩ := by
        apply List.nodup_iff_injective_get.mp hndstf
        rw [← hseed, htfs]
        exact hkr.symm
      have h0k : 0 = k := congrArg Fin.val this
      omega
  exact ⟨key.1, key.2⟩

/-- Witness for C5 at a concrete input: `2s` carries `[+1@3, +1@5]`; the
second `+1` is suppressed — no propagation and no tracked signal at
timestamp 5 — although a valid `1s` parent exists for it. -/
theorem extractTrendIndicators_repeat_suppression_witness :
    (∀ p ∈ (extractTrendIndicators [("1s", [⟨0, 1⟩]), ("2s", [⟨3, 1⟩, ⟨5, 1⟩])] [] []).2,
      ¬(p.lower_freq = "2s" ∧ p.datetime = 5 ∧ p.trend_type = 1)) ∧
    (∀ s ∈ (extractFull [("1s", [⟨0, 1⟩]), ("2s", [⟨3, 1⟩, ⟨5, 1⟩])] [] []).2.2,
      ¬(s.timeframe = "2s" ∧ s.datetime = 5 ∧ s.trendType = 1)) :=
  extractTrendIndicators_repeat_suppression
    [("1s", [⟨0, 1⟩]), ("2s", [⟨3, 1⟩, ⟨5, 1⟩])] [] [] (by decide)
    "2s" 1 (by decide) (by decide) (by decide)
    ⟨5, 1⟩ (by decide) (by decide) ⟨⟨3, 1⟩, by decide, by decide, by decide⟩

/-! ### Per-timeframe propagation caps -/

theorem length_filter_filterMap_le_one {α β : Type _} {l : List α}
    {f : α → Option β} {g : β → Bool} (hnd : l.Nodup)
    (huniq : ∀ a ∈ l, ∀ b ∈ l, (∃ x, f a = some x ∧ g x = true) →
      (∃ y, f b = some y ∧ g y = true) → a = b) :
    ((l.filterMap f).filter g).length ≤ 1 := by
  induction l with
  | nil => simp
  | cons a l ih =>
    have hndl : l.Nodup := hnd.of_cons
    have hanotmem : a ∉ l := (List.nodup_cons.mp hnd).1
    rw [List.filterMap_cons]
    cases hfa : f a with
    | none =>
      exact ih hndl (fun a2 ha2 b hb => huniq a2 (List.mem_cons_of_mem _ ha2) b
        (List.mem_cons_of_mem _ hb))
    | some x =>
      by_cases hgx : g x = true
      · rw [List.filter_cons, if_pos hgx]
        have hrest : (l.filterMap f).filter g = [] := by
          rw [List.filter_eq_nil_iff]
          intro y hy hgy
          obtain ⟨b, hb, hfb⟩ := List.mem_filterMap.mp hy
          have : a = b := huniq a (List.mem_cons_self _ _) b (List.mem_cons_of_mem _ hb)
            ⟨x, hfa, hgx⟩ ⟨y, hfb, hgy⟩
          exact hanotmem (this ▸ hb)
        rw [hrest]
        simp
      · rw [List.filter_cons, if_neg hgx]
        exact ih hndl (fun a2 ha2 b hb => huniq a2 (List.mem_cons_of_mem _ ha2) b
          (List.mem_cons_of_mem _ hb))

theorem processTimeframes_append {ap : List (TF × List PredictionEntry)}
    {csv : List CandlestickData} :
    ∀ (l1 l2 : List TF) (i : Nat) (st : List SignalInfo × List Propagation),
      processTimeframes ap csv i (l1 ++ l2) st =
        processTimeframes ap csv (i + l1.length) l2 (processTimeframes ap csv i l1 st) := by
  intro l1
  induction l1 with
  | nil => intro l2 i st; simp [processTimeframes]
  | cons tfj l1 ih =>
    intro l2 i st
    simp only [List.cons_append, processTimeframes, List.append_eq]
    rw [ih]
    have harith : i + 1 + l1.length = i + (tfj :: l1).length := by simp; omega
    rw [harith]

theorem processTimeframes_no_tf {ap : List (TF × List PredictionEntry)}
    {csv : List CandlestickData} {tf : TF} :
    ∀ (rest : List TF) (i : Nat) (st : List SignalInfo × List Propagation),
      tf ∉ rest →
      (processTimeframes ap csv i rest st).2.filter
          (fun p => decide (p.lower_freq = tf)) =
        st.2.filter (fun p => decide (p.lower_freq = tf)) := by
  intro rest
  induction rest with
  | nil => intro i st _; rfl
  | cons tfj rest ih =>
    intro i st hmem
    obtain ⟨sigs, props⟩ := st
    simp only [processTimeframes]
    rw [ih _ _ (fun h => hmem (List.mem_cons_of_mem _ h))]
    rw [processPass_eq]
    dsimp only
    rw [List.filter_append]
    have hblock : (((predsOf ap tfj).filterMap (emitOne ap csv i tfj sigs)).map
        Prod.fst).filter (fun p => decide (p.lower_freq = tf)) = [] := by
      rw [List.filter_eq_nil_iff]
      intro x hx
      obtain ⟨pair, hpair, hfst⟩ := List.mem_map.mp hx
      obtain ⟨pred, _, hemit⟩ := List.mem_filterMap.mp hpair
      obtain ⟨p2, i2⟩ := pair
      obtain ⟨_, _, parent, _, _, _, _, _, _, hprop, _⟩ := emitOne_some_spec hemit
      rw [← hfst]
      dsimp only
      rw [hprop]
      have htfne : tfj ≠ tf := fun h => hmem (h ▸ List.mem_cons_self _ _)
      simp [mkPropagation, htfne]
    rw [hblock, List.append_nil]

theorem emitOne_value_facts {ap : List (TF × List PredictionEntry)}
    {csv : List CandlestickData} {i : Nat} {tfx : TF} {sigs : List SignalInfo}
    {a : PredictionEntry} {x : Propagation × SignalInfo}
    (h : emitOne ap csv i tfx sigs a = some x) :
    x.1.trend_type = a.value ∧ a.value ≠ 0 := by
  obtain ⟨p2, i2⟩ := x
  obtain ⟨hnz, _, parent, _, _, _, _, _, _, hprop, _⟩ := emitOne_some_spec h
  exact ⟨by rw [hprop]; rfl, hnz⟩

theorem pass_block_value_count {ap : List (TF × List PredictionEntry)}
    {csv : List CandlestickData} {i : Nat} {tfx : TF} {sigs : List SignalInfo}
    (hdist : ((predsOf ap tfx).map (fun p => p.datetime)).Nodup) (v : Int) :
    ((((predsOf ap tfx).filterMap (emitOne ap csv i tfx sigs)).map Prod.fst).filter
      (fun p => decide (p.trend_type = v))).length ≤ 1 := by
  rw [List.filter_map, List.length_map]
  refine length_filter_filterMap_le_one (List.Nodup.of_map _ hdist) ?_
  intro a ha b hb hx hy
  obtain ⟨x, hfa, hgx⟩ := hx
  obtain ⟨y, hfb, hgy⟩ := hy
  simp only [Function.comp, decide_eq_true_eq] at hgx hgy
  obtain ⟨hxa, hanz⟩ := emitOne_value_facts hfa
  obtain ⟨hyb, hbnz⟩ := emitOne_value_facts hfb
  have hav : a.value = v := by rw [← hxa]; exact hgx
  have hbv : b.value = v := by rw [← hyb]; exact hgy
  by_contra hne
  have hdtne : a.datetime ≠ b.datetime := fun hdteq =>
    hne (List.inj_on_of_nodup_map hdist ha hb hdteq)
  rcases Int.lt_trichotomy a.datetime b.datetime with hlt | heq | hgt
  · have hsup : (previousSameTypeSignal ap tfx b).isSome :=
      previousSameTypeSignal_isSome ⟨a, ha, hlt, by rw [hav, hbv], hanz⟩
    rw [emitOne_none_of_prev hsup] at hfb
    exact absurd hfb (by simp)
  · exact hdtne heq
  · have hsup : (previousSameTypeSignal ap tfx a).isSome :=
      previousSameTypeSignal_isSome ⟨b, hb, hgt, by rw [hav, hbv], hbnz⟩
    rw [emitOne_none_of_prev hsup] at hfa
    exact absurd hfa (by simp)

theorem pass_block_total_count {ap : List (TF × List PredictionEntry)}
    {csv : List CandlestickData} {i : Nat} {tfx : TF} {sigs : List SignalInfo}
    (hdist : ((predsOf ap tfx).map (fun p => p.datetime)).Nodup)
    (hrange : ∀ q ∈ predsOf ap tfx, q.value = 1 ∨ q.value = 0 ∨ q.value = -1) :
    (((predsOf ap tfx).filterMap (emitOne ap csv i tfx sigs)).map Prod.fst).length ≤ 2 := by
  have hmem : ∀ p ∈ ((predsOf ap tfx).filterMap (emitOne ap csv i tfx sigs)).map
      Prod.fst, p.trend_type = 1 ∨ p.trend_type = -1 := by
    intro p hp
    obtain ⟨pair, hpair, hfst⟩ := List.mem_map.mp hp
    obtain ⟨a, ha, hemit⟩ := List.mem_filterMap.mp hpair
    obtain ⟨hxa, hanz⟩ := emitOne_value_facts hemit
    rw [← hfst, hxa]
    rcases hrange a ha with h1 | h0 | hm1
    · exact Or.inl h1
    · exact absurd h0 hanz
    · exact Or.inr hm1
  have hsplit := List.length_eq_countP_add_countP
    (p := fun p => decide (p.trend_type = (1 : Int)))
    (((predsOf ap tfx).filterMap (emitOne ap csv i tfx sigs)).map Prod.fst)
  have hc1 : List.countP (fun p => decide (p.trend_type = (1 : Int)))
      (((predsOf ap tfx).filterMap (emitOne ap csv i tfx sigs)).map Prod.fst) ≤ 1 := by
    rw [List.countP_eq_length_filter]
    exact pass_block_value_count hdist 1
  have hcneg : List.countP (fun p => !decide (p.trend_type = (1 : Int)))
      (((predsOf ap tfx).filterMap (emitOne ap csv i tfx sigs)).map Prod.fst) ≤ 1 := by
    have hcong : List.countP (fun p => !decide (p.trend_type = (1 : Int)))
        (((predsOf ap tfx).filterMap (emitOne ap csv i tfx sigs)).map Prod.fst) =
        List.countP (fun p => decide (p.trend_type = (-1 : Int)))
        (((predsOf ap tfx).filterMap (emitOne ap csv i tfx sigs)).map Prod.fst) := by
      refine List.countP_congr ?_
      intro p hp
      rcases hmem p hp with h1 | hm1
      · simp [h1]
      · simp [hm1]
    rw [hcong, List.countP_eq_length_filter]
    exact pass_block_value_count hdist (-1)
  simp only [decide_eq_true_eq, decide_not] at hsplit
  omega

/-- C10: for any timeframe whose signal timestamps are pairwise distinct,
the output contains at most one propagation with that timeframe as
`lower_freq` per trend direction (so at most two in total when signal values
are in {-1, 0, +1}): the repeat suppression keys on any earlier same-value
signal of the timeframe, even one that itself produced no propagation.
(The `Nodup` hypothesis on the keys records that the input is a JS
object.) -/
theorem extractTrendIndicators_per_timeframe_cap
    (ap : List (TF × List PredictionEntry)) (sel : List TF)
    (csv : List CandlestickData) (hnd : (ap.map Prod.fst).Nodup) (tf : TF)
    (hdist : ((predsOf ap tf).map (fun p => p.datetime)).Nodup) :
    (∀ v : Int, (((extractTrendIndicators ap sel csv).2.filter
        (fun p => decide (p.lower_freq = tf))).filter
        (fun p => decide (p.trend_type = v))).length ≤ 1) ∧
    ((∀ q ∈ predsOf ap tf, q.value = 1 ∨ q.value = 0 ∨ q.value = -1) →
      ((extractTrendIndicators ap sel csv).2.filter
        (fun p => decide (p.lower_freq = tf))).length ≤ 2) := by
  unfold extractTrendIndicators extractFull
  by_cases hstfnil : sortedTimeframesOf ap sel = []
  · rw [if_pos hstfnil]
    constructor
    · intro v; simp
    · intro _; simp
  · rw [if_neg hstfnil]
    unfold chainStateOf
    by_cases htfmem : tf ∈ (sortedTimeframesOf ap sel).drop 1
    · obtain ⟨pre, post, hsplit⟩ := List.append_of_mem htfmem
      have hndrest : ((sortedTimeframesOf ap sel).drop 1).Nodup :=
        List.Nodup.sublist (List.drop_sublist _ _) (sortedTimeframesOf_nodup hnd)
      have hndsplit : (pre ++ tf :: post).Nodup := hsplit ▸ hndrest
      have htfpre : tf ∉ pre := by
        intro hp
        rcases List.nodup_append.mp hndsplit with ⟨-, -, hdisj⟩
        exact hdisj hp (List.mem_cons_self _ _)
      have htfpost : tf ∉ post := by
        rcases List.nodup_append.mp hndsplit with ⟨-, hnd2, -⟩
        exact (List.nodup_cons.mp hnd2).1
      rw [hsplit, processTimeframes_append]
      simp only [processTimeframes]
      rw [processTimeframes_no_tf post _ _ htfpost, processPass_eq]
      dsimp only
      rw [List.filter_append]
      have hpre0 : (processTimeframes ap csv 1 pre (seedsOf ap sel csv, [])).2.filter
          (fun p => decide (p.lower_freq = tf)) = [] := by
        rw [processTimeframes_no_tf pre _ _ htfpre]
        rfl
      rw [hpre0, List.nil_append]
      constructor
      · intro v
        exact le_trans
          (List.Sublist.length_le (List.Sublist.filter _ (List.filter_sublist _)))
          (pass_block_value_count hdist v)
      · intro hrange
        exact le_trans (List.Sublist.length_le (List.filter_sublist _))
          (pass_block_total_count hdist hrange)
    · have hz := @processTimeframes_no_tf ap csv tf
        ((sortedTimeframesOf ap sel).drop 1) 1 (seedsOf ap sel csv, []) htfmem
      constructor
      · intro v
        rw [hz]
        simp
      · intro _
        rw [hz]
        simp

/-- Witness for C10 at a concrete input: `2s` carries `[+1@3, +1@5, -1@4]`
with distinct timestamps; at most one `+1`- and one `-1`-propagation with
`lower_freq = 2s` are emitted, at most two in total. -/
theorem extractTrendIndicators_per_timeframe_cap_witness :
    ((((extractTrendIndicators [("1s", [⟨0, 1⟩, ⟨2, -1⟩]),
          ("2s", [⟨3, 1⟩, ⟨5, 1⟩, ⟨4, -1⟩])] [] []).2.filter
        (fun p => decide (p.lower_freq = "2s"))).filter
        (fun p => decide (p.trend_type = 1))).length ≤ 1) ∧
      (((extractTrendIndicators [("1s", [⟨0, 1⟩, ⟨2, -1⟩]),
          ("2s", [⟨3, 1⟩, ⟨5, 1⟩, ⟨4, -1⟩])] [] []).2.filter
        (fun p => decide (p.lower_freq = "2s"))).length ≤ 2) :=
  ⟨(extractTrendIndicators_per_timeframe_cap
      [("1s", [⟨0, 1⟩, ⟨2, -1⟩]), ("2s", [⟨3, 1⟩, ⟨5, 1⟩, ⟨4, -1⟩])] [] []
      (by decide) "2s" (by decide)).1 1,
   (extractTrendIndicators_per_timeframe_cap
      [("1s", [⟨0, 1⟩, ⟨2, -1⟩]), ("2s", [⟨3, 1⟩, ⟨5, 1⟩, ⟨4, -1⟩])] [] []
      (by decide) "2s" (by decide)).2 (by decide)⟩

/-! ### Input-order sensitivity -/

theorem perm_any_eq {α : Type _} {l1 l2 : List α} (h : l1.Perm l2) (f : α → Bool) :
    l1.any f = l2.any f := by
  induction h with
  | nil => rfl
  | cons a _ ih => simp [List.any_cons, ih]
  | swap a b l => simp [List.any_cons, Bool.or_left_comm]
  | trans _ _ ih1 ih2 => exact ih1.trans ih2

theorem sortedTimeframesOf_congr {ap1 ap2 : List (TF × List PredictionEntry)}
    {sel : List TF} (hkeys : ap2.map Prod.fst = ap1.map Prod.fst) :
    sortedTimeframesOf ap2 sel = sortedTimeframesOf ap1 sel := by
  unfold sortedTimeframesOf
  rw [hkeys]

theorem hasOpposingSignal_congr {ap1 ap2 : List (TF × List PredictionEntry)}
    (h : ∀ t, (predsOf ap1 t).Perm (predsOf ap2 t)) (parent : SignalInfo) (t : Int) :
    hasOpposingSignal ap1 parent t = hasOpposingSignal ap2 parent t := by
  unfold hasOpposingSignal
  exact perm_any_eq (h parent.timeframe) _

theorem emitOne_congr {ap1 ap2 : List (TF × List PredictionEntry)}
    {csv : List CandlestickData} {i : Nat} {tfc : TF} {sigs : List SignalInfo}
    {pred : PredictionEntry}
    (hperm : ∀ t, (predsOf ap1 t).Perm (predsOf ap2 t))
    (hcur : predsOf ap1 tfc = predsOf ap2 tfc) :
    emitOne ap1 csv i tfc sigs pred = emitOne ap2 csv i tfc sigs pred := by
  unfold emitOne previousSameTypeSignal findValidParent
  rw [hcur]
  have hfun : (fun parent => !hasOpposingSignal ap1 parent pred.datetime) =
      (fun parent => !hasOpposingSignal ap2 parent pred.datetime) := by
    funext parent
    rw [hasOpposingSignal_congr hperm]
  rw [hfun]

theorem processPass_congr {ap1 ap2 : List (TF × List PredictionEntry)}
    {csv : List CandlestickData} {i : Nat} {tfc : TF}
    (hperm : ∀ t, (predsOf ap1 t).Perm (predsOf ap2 t))
    (hcur : predsOf ap1 tfc = predsOf ap2 tfc) :
    ∀ (preds : List PredictionEntry) (st : List SignalInfo × List Propagation),
      processPass ap1 csv i tfc preds st = processPass ap2 csv i tfc preds st := by
  intro preds
  induction preds with
  | nil => intro st; rfl
  | cons pred rest ih =>
    intro st
    obtain ⟨sigs, props⟩ := st
    simp only [processPass]
    rw [emitOne_congr hperm hcur]
    cases hemit : emitOne ap2 csv i tfc sigs pred with
    | none =>
      show processPass ap1 csv i tfc rest (sigs, props) =
        processPass ap2 csv i tfc rest (sigs, props)
      exact ih _
    | some pi =>
      obtain ⟨prop, info⟩ := pi
      show processPass ap1 csv i tfc rest (sigs ++ [info], props ++ [prop]) =
        processPass ap2 csv i tfc rest (sigs ++ [info], props ++ [prop])
      exact ih _

theorem processTimeframes_congr {ap1 ap2 : List (TF × List PredictionEntry)}
    {csv : List CandlestickData}
    (hperm : ∀ t, (predsOf ap1 t).Perm (predsOf ap2 t)) :
    ∀ (rest : List TF), (∀ t ∈ rest, predsOf ap1 t = predsOf ap2 t) →
      ∀ (i : Nat) (st : List SignalInfo × List Propagation),
        processTimeframes ap1 csv i rest st = processTimeframes ap2 csv i rest st := by
  intro rest
  induction rest with
  | nil => intro _ i st; rfl
  | cons tfc rest ih =>
    intro hcur i st
    simp only [processTimeframes]
    rw [hcur tfc (List.mem_cons_self _ _),
      processPass_congr hperm (hcur tfc (List.mem_cons_self _ _))]
    exact ih (fun t ht => hcur t (List.mem_cons_of_mem _ ht)) (i + 1) _

theorem insertionSort_eq_of_perm_of_nodup_datetime {l1 l2 : List PredictionEntry}
    (hperm : l1.Perm l2) (hnd : (l1.map (fun p => p.datetime)).Nodup) :
    List.insertionSort predTimeLE l1 = List.insertionSort predTimeLE l2 := by
  haveI : IsAntisymm PredictionEntry (fun a b => a.datetime < b.datetime) :=
    ⟨fun a b h1 h2 => absurd (h1.trans h2) (lt_irrefl _)⟩
  have hp : (List.insertionSort predTimeLE l1).Perm (List.insertionSort predTimeLE l2) :=
    (List.perm_insertionSort _ _).trans (hperm.trans (List.perm_insertionSort _ _).symm)
  have hstrict : ∀ (l : List PredictionEntry),
      (l.map (fun p => p.datetime)).Nodup →
      List.Sorted predTimeLE (List.insertionSort predTimeLE l) →
      List.Sorted (fun a b => a.datetime < b.datetime)
        (List.insertionSort predTimeLE l) := by
    intro l hndl hs
    have hndl2 : ((List.insertionSort predTimeLE l).map (fun p => p.datetime)).Nodup := by
      refine (List.Perm.nodup_iff ?_).mpr hndl
      exact (List.perm_insertionSort _ _).map _
    have hne : List.Pairwise (fun a b : PredictionEntry => a.datetime ≠ b.datetime)
        (List.insertionSort predTimeLE l) := List.pairwise_map.mp hndl2
    have hand := List.Pairwise.and hs hne
    refine hand.imp ?_
    intro a b hab
    exact lt_of_le_of_ne hab.1 hab.2
  have hnd2 : (l2.map (fun p => p.datetime)).Nodup :=
    (List.Perm.nodup_iff (hperm.map _)).mp hnd
  exact List.eq_of_perm_of_sorted hp
    (hstrict l1 hnd (List.sorted_insertionSort predTimeLE l1))
    (hstrict l2 hnd2 (List.sorted_insertionSort predTimeLE l2))

/-- C4 (amended): the engine sorts only the fastest timeframe defensively —
permuting the fastest timeframe's input list (timestamps distinct) leaves
the whole output unchanged; the counterexample shows that permuting a
non-fastest timeframe's list can reorder the emitted propagations, because
those lists are iterated in input order. -/
theorem extractTrendIndicators_fastest_perm_invariant
    (ap1 ap2 : List (TF × List PredictionEntry)) (sel : List TF)
    (csv : List CandlestickData)
    (hkeys : ap2.map Prod.fst = ap1.map Prod.fst)
    (hkeynd : (ap1.map Prod.fst).Nodup)
    (hfast : (predsOf ap1 ((sortedTimeframesOf ap1 sel).headD "")).Perm
      (predsOf ap2 ((sortedTimeframesOf ap1 sel).headD "")))
    (hdistinct : ((predsOf ap1 ((sortedTimeframesOf ap1 sel).headD "")).map
      (fun p => p.datetime)).Nodup)
    (hothers : ∀ t, t ≠ (sortedTimeframesOf ap1 sel).headD "" →
      predsOf ap2 t = predsOf ap1 t) :
    extractTrendIndicators ap1 sel csv = extractTrendIndicators ap2 sel csv := by
  have hstf : sortedTimeframesOf ap2 sel = sortedTimeframesOf ap1 sel :=
    sortedTimeframesOf_congr hkeys
  have hperm : ∀ t, (predsOf ap1 t).Perm (predsOf ap2 t) := by
    intro t
    by_cases h : t = (sortedTimeframesOf ap1 sel).headD ""
    · rw [h]
      exact hfast
    · rw [hothers t h]
  unfold extractTrendIndicators extractFull
  rw [hstf]
  by_cases hnil : sortedTimeframesOf ap1 sel = []
  · rw [if_pos hnil, if_pos hnil]
  · rw [if_neg hnil, if_neg hnil]
    have hsortedpreds : sortedPredictionsOf ap1 sel = sortedPredictionsOf ap2 sel := by
      unfold sortedPredictionsOf
      rw [hstf]
      exact insertionSort_eq_of_perm_of_nodup_datetime hfast hdistinct
    have hinds : initialIndicatorsOf ap1 sel csv = initialIndicatorsOf ap2 sel csv := by
      unfold initialIndicatorsOf
      rw [hstf, ← hsortedpreds]
    have hseeds : seedsOf ap1 sel csv = seedsOf ap2 sel csv := by
      unfold seedsOf
      rw [hstf, ← hinds]
    have hchain : chainStateOf ap1 sel csv = chainStateOf ap2 sel csv := by
      unfold chainStateOf
      rw [hstf, ← hseeds]
      apply processTimeframes_congr hperm
      intro t ht
      refine (hothers t ?_).symm
      intro hth
      have hstfnd : (sortedTimeframesOf ap1 sel).Nodup := sortedTimeframesOf_nodup hkeynd
      cases hc : sortedTimeframesOf ap1 sel with
      | nil => exact hnil hc
      | cons tf0 rest =>
        rw [hc] at ht hth hstfnd
        have hteq : t = tf0 := by rw [hth]; rfl
        rw [hteq] at ht
        have hrest : (tf0 : TF) ∈ rest := by simpa using ht
        exact (List.nodup_cons.mp hstfnd).1 hrest
    rw [hinds, hchain]

/-- Witness for C4 (amended) at a concrete input: reversing the fastest
timeframe's list leaves the output unchanged. -/
theorem extractTrendIndicators_fastest_perm_invariant_witness :
    extractTrendIndicators [("1s", [⟨0, 1⟩, ⟨1, -1⟩]), ("2s", [⟨5, -1⟩])] [] [] =
      extractTrendIndicators [("1s", [⟨1, -1⟩, ⟨0, 1⟩]), ("2s", [⟨5, -1⟩])] [] [] := by
  refine extractTrendIndicators_fastest_perm_invariant _ _ [] [] (by decide) (by decide)
    (by decide) (by decide) ?_
  intro t ht
  have h1 : (("1s" : TF) == t) = false := by
    have hne : ("1s" : TF) ≠ t := by
      intro h
      exact ht (by rw [← h]; decide)
    simpa using hne
  simp [predsOf, List.find?, h1]

/-- C4 counterexample: with fastest `1s = [+1@0, -1@10]` and
`2s`-signals `+1@2`, `-1@11` given in the two possible orders, the engine
emits the same two propagations in different orders — the output depends on
the input order of a non-fastest timeframe's signal list. -/
theorem extractTrendIndicators_order_counterexample :
    (([⟨2, 1⟩, ⟨11, -1⟩] : List PredictionEntry).Perm [⟨11, -1⟩, ⟨2, 1⟩]) ∧
      extractTrendIndicators
          [("1s", [⟨0, 1⟩, ⟨10, -1⟩]), ("2s", [⟨2, 1⟩, ⟨11, -1⟩])] [] [] ≠
        extractTrendIndicators
          [("1s", [⟨0, 1⟩, ⟨10, -1⟩]), ("2s", [⟨11, -1⟩, ⟨2, 1⟩])] [] [] :=
  ⟨by decide, by decide⟩

end IndicatorAnalysis
